import Mathlib

/-!
Shallow embedding of the video-sorting core (`sorter/sorter.py`) of the
tg-downloader repository, together with theorems settling the frozen
specification claims.

Modelling conventions:

* Python floats are modelled as rationals (`ℚ`); the float literals
  `0.33`, `0.66`, `0.5`, `0.13` of the source become the exact rationals
  they denote.
* `math.sqrt` is not rational-valued, so every function that calls it
  receives an explicit parameter `sqrtFn : ℚ → ℚ` standing for
  `math.sqrt`; theorems about such functions either hold for every
  `sqrtFn` or constrain `sqrtFn` exactly at the argument where it is
  applied (`0 ≤ sqrtFn x`, `sqrtFn x ^ 2 = x`), which is all the source
  uses about the real square root.
* Python's `int(x)` (truncation towards zero) is `pyInt`.
* Filenames are modelled as the pair produced by `os.path.splitext`
  (stem and extension); a full filename is recovered by `Video.render`.
* The filesystem is modelled as the root directory's files plus one
  level of subdirectories, which covers every state produced by the
  single-dimension sort operations and the reset walk over them.
* Exceptions (`KeyError` from a `stats[cat] += 1` on a missing key, a
  `FileExistsError` from `os.makedirs` when the destination name exists
  as a regular file, a raising `shutil.move`, a raising progress
  callback) are modelled with `Except PyErr`; environmental move failures and raising progress sinks
  are modelled by Boolean oracles indexed by the position in the batch.
-/

deriving instance DecidableEq for Except

unseal List.merge List.mergeSort Rat.add Rat.mul Rat.inv Rat.sub

namespace Sorter

/-- Python `int(q)`: truncation of a rational towards zero. -/
def pyInt (q : ℚ) : ℤ :=
  if q < 0 then -((-q).floor) else q.floor

/-- Python `min(list)` (0 as the irrelevant default for the empty list,
which raises in Python). -/
def listMin (l : List ℚ) : ℚ := l.foldr min (l.headD 0)

/-- Python `max(list)`. -/
def listMax (l : List ℚ) : ℚ := l.foldr max (l.headD 0)

/-!  ## Threshold engine (`sorter.py` lines 158-391) -/

/-- `_percentile` (lines 158-168): linear interpolation between order
statistics of the sorted sample at index `k = (n-1)·p`. -/
def pyPercentile (values : List ℚ) (p : ℚ) : ℚ :=
  if values = [] then 0
  else
    let sorted_values := values.mergeSort (fun a b => a ≤ b)
    let k : ℚ := ((sorted_values.length : ℚ) - 1) * p
    let f : ℕ := (pyInt k).toNat
    let c : ℚ := k - (f : ℚ)
    if f + 1 < sorted_values.length then
      sorted_values.getD f 0 * (1 - c) + sorted_values.getD (f + 1) 0 * c
    else
      sorted_values.getD f 0

/-- The interpolation kernel of `_percentile`, as a function of the
sorted sample and the fractional index `k` (used to state monotonicity
of `pyPercentile` in `p`). -/
def interp (s : List ℚ) (k : ℚ) : ℚ :=
  let f : ℕ := (pyInt k).toNat
  let c : ℚ := k - (f : ℚ)
  if f + 1 < s.length then
    s.getD f 0 * (1 - c) + s.getD (f + 1) 0 * c
  else
    s.getD f 0

/-- `_mean` (lines 171-175). -/
def pyMean (values : List ℚ) : ℚ :=
  if values = [] then 0 else values.sum / (values.length : ℚ)

/-- The population variance `sum((x - mean)^2 for x in values) / len(values)`
computed inside `_stddev` (lines 178-184). -/
def pyVariance (values : List ℚ) : ℚ :=
  (values.map (fun x => (x - pyMean values) ^ 2)).sum / (values.length : ℚ)

/-- `_stddev` (lines 178-184); `sqrtFn` stands for `math.sqrt`. -/
def pyStddev (sqrtFn : ℚ → ℚ) (values : List ℚ) : ℚ :=
  if values.length < 2 then 0 else sqrtFn (pyVariance values)

/-- `calculate_thresholds_percentile` (lines 187-200). -/
def calculate_thresholds_percentile (values : List ℚ) (num_categories : ℕ) : List ℚ :=
  if values = [] then []
  else if num_categories = 2 then [pyPercentile values (1/2)]
  else [pyPercentile values (33/100), pyPercentile values (66/100)]

/-- `calculate_thresholds_stddev` (lines 203-222); `sqrtFn` stands for
`math.sqrt`. -/
def calculate_thresholds_stddev (sqrtFn : ℚ → ℚ) (values : List ℚ)
    (num_categories : ℕ) : List ℚ :=
  if values = [] then []
  else
    let mean := pyMean values
    let std := pyStddev sqrtFn values
    if num_categories = 2 then [max 0 mean]
    else [max 0 (mean - (1/2) * std), mean + (1/2) * std]

/-- Index of the first minimum of a list, `distances.index(min(distances))`
in `calculate_thresholds_kmeans` (line 249). -/
def firstMinIdx (l : List ℚ) : ℕ := l.indexOf (listMin l)

/-- One assignment step of `calculate_thresholds_kmeans` (lines 246-250):
the clusters of values assigned to each centroid. -/
def kmeansClusters (values : List ℚ) (centroids : List ℚ) : List (List ℚ) :=
  (List.range centroids.length).map fun i =>
    values.filter fun v => firstMinIdx (centroids.map fun c => |v - c|) = i

/-- Centroid update of `calculate_thresholds_kmeans` (lines 252-258). -/
def kmeansUpdate (values : List ℚ) (centroids : List ℚ) : List ℚ :=
  (kmeansClusters values centroids).zipWith
    (fun cluster c => if cluster = [] then c else pyMean cluster) centroids

/-- The iteration loop of `calculate_thresholds_kmeans` (lines 244-263),
with the iteration cap as fuel. -/
def kmeansIter (values : List ℚ) : ℕ → List ℚ → List ℚ
  | 0, centroids => centroids
  | fuel + 1, centroids =>
    let new_centroids := kmeansUpdate values centroids
    if new_centroids = centroids then centroids
    else kmeansIter values fuel new_centroids

/-- `calculate_thresholds_kmeans` (lines 225-271). -/
def calculate_thresholds_kmeans (values : List ℚ) (num_categories : ℕ)
    (max_iter : ℕ := 100) : List ℚ :=
  if values = [] ∨ values.length < num_categories then []
  else
    let min_val := listMin values
    let max_val := listMax values
    if min_val = max_val then []
    else
      let centroids0 := (List.range num_categories).map fun i =>
        min_val + (max_val - min_val) * ((i : ℚ) + 1/2) / (num_categories : ℚ)
      let centroids := (kmeansIter values max_iter centroids0).mergeSort (fun a b => a ≤ b)
      (List.range (centroids.length - 1)).map fun i =>
        (centroids.getD i 0 + centroids.getD (i + 1) 0) / 2

/-- Python row access with negative-index wraparound, as used by the
backtracking of the Jenks dynamic program (`lower_class_limits[k]` where
`k` may have become `-1`). -/
def pyRow (t : Array (Array ℕ)) (i : ℤ) : Array ℕ :=
  if 0 ≤ i then t.getD i.toNat #[] else t.getD (t.size - (-i).toNat) #[]

/-- The dynamic-programming core of `calculate_thresholds_jenks`
(lines 293-332), on the sorted sample, returning the sorted breaks of the
backtracking; `float('inf')` is `⊤ : WithTop ℚ`. -/
def jenksDP (sorted_values : List ℚ) (num_categories : ℕ) : List ℚ := Id.run do
  let n := sorted_values.length
  let a := sorted_values.toArray
  let mut lower_class_limits : Array (Array ℕ) :=
    Array.mkArray (n + 1) (Array.mkArray (num_categories + 1) 0)
  let mut variance_combinations : Array (Array (WithTop ℚ)) :=
    Array.mkArray (n + 1) (Array.mkArray (num_categories + 1) ⊤)
  for i in [1:num_categories+1] do
    lower_class_limits := lower_class_limits.set! 1
      ((lower_class_limits.getD 1 #[]).set! i 1)
    variance_combinations := variance_combinations.set! 1
      ((variance_combinations.getD 1 #[]).set! i (0 : WithTop ℚ))
  let mut v : ℚ := 0
  for l in [2:n+1] do
    let mut s1 : ℚ := 0
    let mut s2 : ℚ := 0
    for m in [1:l+1] do
      let i := l - m + 1
      let val := a.getD (i - 1) 0
      s1 := s1 + val
      s2 := s2 + val * val
      v := s2 - s1 * s1 / (m : ℚ)
      if 1 < i then
        for j in [2:num_categories+1] do
          let cand := (v : WithTop ℚ) + (variance_combinations.getD (i-1) #[]).getD (j-1) ⊤
          if cand ≤ (variance_combinations.getD l #[]).getD j ⊤ then
            lower_class_limits := lower_class_limits.set! l
              ((lower_class_limits.getD l #[]).set! j i)
            variance_combinations := variance_combinations.set! l
              ((variance_combinations.getD l #[]).set! j cand)
    lower_class_limits := lower_class_limits.set! l
      ((lower_class_limits.getD l #[]).set! 1 1)
    variance_combinations := variance_combinations.set! l
      ((variance_combinations.getD l #[]).set! 1 (v : WithTop ℚ))
  let mut breaks : List ℚ := []
  let mut k : ℤ := n
  for j' in [0:num_categories-1] do
    let j := num_categories - j'
    let idx : ℤ := ((pyRow lower_class_limits k).getD j 0 : ℤ) - 1
    if 0 ≤ idx ∧ idx < (n : ℤ) then
      breaks := breaks ++ [a.getD idx.toNat 0]
    k := idx
  breaks.mergeSort (fun a b => a ≤ b)

/-- `calculate_thresholds_jenks` (lines 274-333).  The guards for tiny
samples (lines 280-291) come before the percentile fallback for samples
smaller than 20; the dynamic program runs only for `n ≥ 20`, falling
back to the percentile method if backtracking does not produce exactly
`num_categories - 1` breaks. -/
def calculate_thresholds_jenks (values : List ℚ) (num_categories : ℕ) : List ℚ :=
  if values = [] ∨ values.length < num_categories then []
  else
    let sorted_values := values.mergeSort (fun a b => a ≤ b)
    let n := sorted_values.length
    if n ≤ num_categories then sorted_values.dropLast
    else if n < 20 then calculate_thresholds_percentile values num_categories
    else
      let breaks := jenksDP sorted_values num_categories
      if breaks.length = num_categories - 1 then breaks
      else calculate_thresholds_percentile values num_categories

/-- `calculate_dynamic_thresholds` (lines 336-391), thresholds component
(the diagnostic `info` dict is not needed by any claim). -/
def calculate_dynamic_thresholds (sqrtFn : ℚ → ℚ) (values : List ℚ)
    (method : String) (num_categories : ℕ) : List ℚ :=
  if values = [] then []
  else if method = "fixed" then []
  else if method = "percentile" then calculate_thresholds_percentile values num_categories
  else if method = "stddev" then calculate_thresholds_stddev sqrtFn values num_categories
  else if method = "kmeans" then calculate_thresholds_kmeans values num_categories
  else if method = "jenks" then calculate_thresholds_jenks values num_categories
  else calculate_thresholds_percentile values num_categories

/-!  ## Categorizer, labels and derived quantities -/

/-- `categorize_by_thresholds` (lines 394-409).  The Python `for` loop
returns `labels[i]` at the first threshold with `value < threshold` and
`labels[-1]` otherwise; out-of-range label access (impossible when
`len(labels) = len(thresholds)+1`) is modelled with a default. -/
def categorize_by_thresholds (value : ℚ) (thresholds : List ℚ)
    (labels : List String) : String :=
  if thresholds = [] then
    if 1 < labels.length then labels.getD 1 "" else labels.getD 0 ""
  else
    match thresholds.findIdx? (fun t => value < t) with
    | some i => labels.getD i ""
    | none => labels.getLastD ""

/-- `calculate_optimal_bitrate` (lines 140-151): `fps` values `≤ 0` are
replaced by 30 before the product is taken. -/
def calculate_optimal_bitrate (width height : ℕ) (fps : ℚ)
    (factor : ℚ) : ℚ :=
  let fps' := if fps ≤ 0 then 30 else fps
  (width : ℚ) * (height : ℚ) * fps' * factor

/-- The quality ratio derived in `analyze_videos` (line 509):
`bitrate / optimal if optimal > 0 and bitrate > 0 else 0`. -/
def qualityRatioOf (bitrate : ℕ) (optimal : ℚ) : ℚ :=
  if 0 < optimal ∧ 0 < bitrate then (bitrate : ℚ) / optimal else 0

/-- Duration folder labels built in `preview_videos` (lines 580-601),
embedding `int(threshold)` in the names. -/
def durationLabels (num_categories : ℕ) (thresholds : List ℚ) : List String :=
  if num_categories = 2 then
    match thresholds with
    | t :: _ =>
      ["short_under_" ++ toString (pyInt t) ++ "s",
       "long_over_" ++ toString (pyInt t) ++ "s"]
    | [] => ["short", "long"]
  else
    if 2 ≤ thresholds.length then
      let t1 := thresholds.getD 0 0
      let t2 := thresholds.getD 1 0
      ["short_under_" ++ toString (pyInt t1) ++ "s",
       "medium_" ++ toString (pyInt t1) ++ "s-" ++ toString (pyInt t2) ++ "s",
       "long_over_" ++ toString (pyInt t2) ++ "s"]
    else ["short", "medium", "long"]

/-- Quality folder labels built in `preview_videos` (lines 587-611),
embedding `int(threshold*100)` in the names. -/
def qualityLabels (num_categories : ℕ) (thresholds : List ℚ) : List String :=
  if num_categories = 2 then
    match thresholds with
    | t :: _ =>
      ["low_under_" ++ toString (pyInt (t * 100)) ++ "pct",
       "high_over_" ++ toString (pyInt (t * 100)) ++ "pct"]
    | [] => ["low", "high"]
  else
    if 2 ≤ thresholds.length then
      let t1 := thresholds.getD 0 0
      let t2 := thresholds.getD 1 0
      ["low_under_" ++ toString (pyInt (t1 * 100)) ++ "pct",
       "medium_" ++ toString (pyInt (t1 * 100)) ++ "-" ++
         toString (pyInt (t2 * 100)) ++ "pct",
       "high_over_" ++ toString (pyInt (t2 * 100)) ++ "pct"]
    else ["low", "medium", "high"]

/-- The category computed identically in `sort_by_bitrate` (lines 809-814)
and in `sort_by_pipeline` (lines 877-883): `low` exactly when
`bitrate > 0 and bitrate < threshold_kbps * 1000`. -/
def bitrateCategoryOf (threshold_kbps : ℕ) (bitrate : ℕ) : String :=
  if 0 < bitrate ∧ bitrate < threshold_kbps * 1000 then
    "low_under_" ++ toString threshold_kbps ++ "kbps"
  else
    "normal_over_" ++ toString threshold_kbps ++ "kbps"

/-!  ## Configuration (`DEFAULT_CONFIG`, lines 32-49) -/

/-- The recognized configuration options consumed by the sorting core. -/
structure Config where
  videoExtensions : List String
  durationMethod : String
  qualityMethod : String
  durationShortMax : ℚ
  durationMediumMax : ℚ
  qualityHighMin : ℚ
  qualityMediumMin : ℚ
  bitrateFactor : ℚ
  numCategories : ℕ
  bitrateThreshold : ℕ
deriving DecidableEq, Repr

/-- `DEFAULT_CONFIG` (lines 32-49); `0.13 = 13/100`. -/
def defaultConfig : Config where
  videoExtensions := [".mp4", ".avi", ".mov", ".mkv", ".webm", ".flv", ".wmv"]
  durationMethod := "fixed"
  qualityMethod := "fixed"
  durationShortMax := 60
  durationMediumMax := 300
  qualityHighMin := 1
  qualityMediumMin := 1/2
  bitrateFactor := 13/100
  numCategories := 3
  bitrateThreshold := 300

/-!  ## Filesystem model

A file is a `Video`: its name as the `os.path.splitext` pair
(stem, extension) plus the metadata the external `ffprobe` probe would
report for it; `probeOk = false` models a file whose metadata probe
fails (`get_video_info` returning `None`).  The filesystem is the root
directory's files plus one level of subdirectories. -/

structure Video where
  base : String
  ext : String
  width : ℕ
  height : ℕ
  fps : ℚ
  duration : ℚ
  bitrate : ℕ
  probeOk : Bool
deriving DecidableEq, Repr

/-- The full filename, `base ++ ext` (the inverse of `os.path.splitext`). -/
def Video.render (v : Video) : String := v.base ++ v.ext

structure FS where
  rootFiles : List Video
  subdirs : List (String × List Video)
deriving DecidableEq, Repr

/-- All files sitting in subdirectories. -/
def FS.subFiles (fs : FS) : List Video := fs.subdirs.flatMap (·.2)

/-- All subdirectory files paired with their directory, in walk order
(the unfiltered version of the reset collection pass). -/
def dirPairs (fs : FS) : List (String × Video) :=
  fs.subdirs.flatMap fun p => p.2.map (fun v => (p.1, v))

/-- Python `str.lower()`, character by character (the recognized
extensions are ASCII, for which `Char.toLower` agrees with Python). -/
def pyLower (s : String) : String := ⟨s.data.map Char.toLower⟩

/-- `os.path.splitext(f)[1].lower() in extensions` (lines 486, 988). -/
def isVideoFile (cfg : Config) (v : Video) : Bool :=
  cfg.videoExtensions.contains (pyLower v.ext)

/-- Python's string comparison `a <= b`: lexicographic by code point,
a proper prefix preceding its extensions. -/
def pyStrLe : List Char → List Char → Bool
  | [], _ => true
  | _ :: _, [] => false
  | a :: as, b :: bs =>
    if a < b then true else if b < a then false else pyStrLe as bs

/-- `sorted(os.listdir(directory))` restricted to video files
(lines 483-487): the root files with a recognized extension, sorted by
filename. -/
def listRootVideos (cfg : Config) (fs : FS) : List Video :=
  (fs.rootFiles.filter (isVideoFile cfg)).mergeSort
    (fun a b => pyStrLe a.render.data b.render.data)

/-- `os.path.exists(os.path.join(directory, name))`: a root entry (file
or subdirectory) with this filename exists. -/
def FS.existsRoot (fs : FS) (name : String) : Bool :=
  fs.rootFiles.any (fun v => v.render = name) ∨
    fs.subdirs.any (fun p => p.1 = name)

/-- The exceptions the embedded code can raise: a `KeyError` from
`stats[cat] += 1` on a missing key, a `FileExistsError` from
`os.makedirs(..., exist_ok=True)` when the destination name exists as a
regular file, a raising `shutil.move`, and a raising caller-supplied
progress callback. -/
inductive PyErr where
  | keyErr
  | existsErr
  | moveErr
  | sinkErr
deriving DecidableEq, Repr

/-- `os.makedirs(dest_dir, exist_ok=True)` on a direct subdirectory:
silently succeeds when the directory already exists, but raises
`FileExistsError` when the destination name exists as a regular file at
the root (`exist_ok=True` suppresses the error only for an existing
*directory*); otherwise creates the directory. -/
def FS.ensureDir (fs : FS) (d : String) : Except PyErr FS :=
  if fs.subdirs.any (fun p => p.1 = d) then .ok fs
  else if fs.rootFiles.any (fun v => v.render = d) then .error .existsErr
  else .ok ⟨fs.rootFiles, fs.subdirs ++ [(d, [])]⟩

/-- The filesystem after a successful `os.makedirs` (the value
`ensureDir` returns when it does not raise, see `ensureDir_of_fresh`). -/
def FS.createDir (fs : FS) (d : String) : FS :=
  if fs.subdirs.any (fun p => p.1 = d) then fs
  else ⟨fs.rootFiles, fs.subdirs ++ [(d, [])]⟩

/-- `shutil.move(root/src, root/d/dest)`: remove the source file from the
root listing and place it in subdirectory `d`, replacing any existing
file there with the same filename (the overwrite semantics of a rename
onto an existing path). -/
def FS.moveRootToDir (fs : FS) (d : String) (v : Video) : FS :=
  ⟨fs.rootFiles.erase v,
   fs.subdirs.map fun p =>
     if p.1 = d then (p.1, p.2.filter (fun w => w.render ≠ v.render) ++ [v])
     else p⟩

/-- `shutil.move(root/d/src, root/dest)`: remove the file from
subdirectory `d` and append it (possibly renamed) to the root listing. -/
def FS.moveDirToRoot (fs : FS) (d : String) (v : Video) (v' : Video) : FS :=
  ⟨fs.rootFiles ++ [v'],
   fs.subdirs.map fun p => if p.1 = d then (p.1, p.2.erase v) else p⟩

/-!  ## Exceptions and oracles -/

/-- Oracle that never signals a failure: a healthy filesystem
(for moves) or a progress callback that never raises (equivalently,
`on_progress=None`, which skips the call). -/
def noFail : ℕ → Bool := fun _ => false

/-!  ## Analysis pass (`analyze_videos`, lines 466-523) -/

/-- One analyzed record: the file plus the derived fields attached by
`analyze_videos` (lines 506-517) and `get_video_info` (line 134). -/
structure AVid where
  video : Video
  orientation : String
  optimalBitrate : ℚ
  qualityRatio : ℚ
deriving DecidableEq, Repr

/-- The record built for one successfully probed file
(lines 506-517): `optimal = calculate_optimal_bitrate(...)`,
`quality_ratio = bitrate / optimal if optimal > 0 and bitrate > 0 else 0`,
orientation `horizontal` iff `width >= height` (line 134). -/
def mkAVid (cfg : Config) (v : Video) : AVid where
  video := v
  orientation := if v.height ≤ v.width then "horizontal" else "vertical"
  optimalBitrate := calculate_optimal_bitrate v.width v.height v.fps cfg.bitrateFactor
  qualityRatio := qualityRatioOf v.bitrate
    (calculate_optimal_bitrate v.width v.height v.fps cfg.bitrateFactor)

/-- The per-file loop of `analyze_videos` (lines 495-517).  The progress
callback is invoked (unguarded) before each file is probed; `sinkFails i`
models the callback raising on its `i`-th invocation.  A failed probeadds
the filename to the error list and the loop continues. -/
def analyzeLoop (cfg : Config) (sinkFails : ℕ → Bool) :
    List Video → ℕ → Except PyErr (List AVid × List String)
  | [], _ => .ok ([], [])
  | v :: rest, i =>
    if sinkFails i then .error .sinkErr
    else
      match analyzeLoop cfg sinkFails rest (i + 1) with
      | .error e => .error e
      | .ok (av, errs) =>
        if v.probeOk then .ok (mkAVid cfg v :: av, errs)
        else .ok (av, v.render :: errs)

/-- `analyze_videos` (lines 466-523): analyzed records and probe-error
filenames over the sorted root listing. -/
def analyzeFS (cfg : Config) (sinkFails : ℕ → Bool) (fs : FS) :
    Except PyErr (List AVid × List String) :=
  analyzeLoop cfg sinkFails (listRootVideos cfg fs) 0

/-!  ## Preview (`preview_videos`, lines 526-662) -/

/-- One previewed record: the analyzed file plus the category fields set
by `preview_videos` (lines 621-636). -/
structure PVid where
  video : Video
  orientation : String
  durationCat : String
  qualityCat : String
deriving DecidableEq, Repr

/-- Duration thresholds resolved by `preview_videos` (lines 552-563):
dynamic over the positive durations, or the two fixed config cutoffs. -/
def durationThresholdsOf (cfg : Config) (sqrtFn : ℚ → ℚ)
    (avids : List AVid) : List ℚ :=
  let durations := (avids.map (fun a => a.video.duration)).filter (fun d => 0 < d)
  if cfg.durationMethod ≠ "fixed" then
    calculate_dynamic_thresholds sqrtFn durations cfg.durationMethod cfg.numCategories
  else [cfg.durationShortMax, cfg.durationMediumMax]

/-- Quality thresholds resolved by `preview_videos` (lines 565-576):
dynamic over the positive quality ratios, or the two fixed cutoffs. -/
def qualityThresholdsOf (cfg : Config) (sqrtFn : ℚ → ℚ)
    (avids : List AVid) : List ℚ :=
  let ratios := (avids.map (fun a => a.qualityRatio)).filter (fun r => 0 < r)
  if cfg.qualityMethod ≠ "fixed" then
    calculate_dynamic_thresholds sqrtFn ratios cfg.qualityMethod cfg.numCategories
  else [cfg.qualityMediumMin, cfg.qualityHighMin]

/-- `preview_videos` (lines 526-662): categorize every analyzed record
using thresholds computed once over the whole batch.  The aggregate
`stats` dictionary preview builds for display (lines 614-641) is keyed
by the very labels it assigns and is never read by the sort operations,
so it is not modelled. -/
def previewFS (cfg : Config) (sqrtFn : ℚ → ℚ) (sinkFails : ℕ → Bool)
    (fs : FS) : Except PyErr (List PVid × List String) :=
  match analyzeFS cfg sinkFails fs with
  | .error e => .error e
  | .ok (avids, errs) =>
    if avids = [] then .ok ([], errs)
    else
      let dThr := durationThresholdsOf cfg sqrtFn avids
      let qThr := qualityThresholdsOf cfg sqrtFn avids
      let dLabels := durationLabels cfg.numCategories dThr
      let qLabels := qualityLabels cfg.numCategories qThr
      .ok (avids.map (fun a =>
        { video := a.video
          orientation :=
            if a.video.height ≤ a.video.width then "horizontal" else "vertical"
          durationCat := categorize_by_thresholds a.video.duration dThr dLabels
          qualityCat :=
            if (0 : ℚ) < a.qualityRatio then
              categorize_by_thresholds a.qualityRatio qThr qLabels
            else "unknown" }), errs)

/-!  ## Sort operations (`sort_by_*`, lines 665-779) -/

/-- The `{moved, errors, stats}` result of a sort operation. -/
structure SortRes where
  moved : ℕ
  errors : ℕ
  stats : List (String × ℕ)
deriving DecidableEq, Repr

/-- `stats[cat] += 1` on a Python dict: raises `KeyError` when the key
is absent. -/
def bumpKey (stats : List (String × ℕ)) (k : String) :
    Except PyErr (List (String × ℕ)) :=
  if stats.any (fun p => p.1 = k) then
    .ok (stats.map fun p => if p.1 = k then (p.1, p.2 + 1) else p)
  else .error .keyErr

/-- State threaded through a sort move loop. -/
structure SortSt where
  moved : ℕ
  stats : List (String × ℕ)
  fs : FS
deriving DecidableEq, Repr

/-- The move loop shared by `sort_by_orientation` (lines 686-699),
`sort_by_duration` (lines 725-738) and `sort_by_quality` (lines
764-777): per file, compute the destination, invoke the (unguarded)
progress callback, then — unless dry-run — create the destination
directory (`os.makedirs`, which raises `FileExistsError` when the
destination name exists as a regular file) and move the file with
**no** collision check and **no** try/except (a raising `shutil.move`,
`moveFails i`, propagates), and
finally `stats[cat] += 1` (KeyError when `cat` is not among the
initialized keys) and `moved += 1`. -/
def sortLoop (dry : Bool) (moveFails sinkFails : ℕ → Bool)
    (catOf : PVid → String) :
    List PVid → ℕ → SortSt → Except PyErr SortSt
  | [], _, st => .ok st
  | pv :: rest, i, st =>
    let cat := catOf pv
    if sinkFails i then .error .sinkErr
    else if dry then
      match bumpKey st.stats cat with
      | .error e => .error e
      | .ok stats' =>
        sortLoop dry moveFails sinkFails catOf rest (i + 1)
          ⟨st.moved + 1, stats', st.fs⟩
    else
      match st.fs.ensureDir cat with
      | .error e => .error e
      | .ok fs1 =>
        if moveFails i then .error .moveErr
        else
          let fs' := fs1.moveRootToDir cat pv.video
          match bumpKey st.stats cat with
          | .error e => .error e
          | .ok stats' =>
            sortLoop dry moveFails sinkFails catOf rest (i + 1)
              ⟨st.moved + 1, stats', fs'⟩

/-- The common shape of the three category sort operations: preview the
directory (the sorts pass no progress callback to `preview_videos`,
line 677/716/755), early-return `{moved: 0, errors: 0, stats: {}}` on an
empty file list, otherwise run the move loop and report
`errors = len(preview["errors"])`. -/
def sortGeneric (cfg : Config) (sqrtFn : ℚ → ℚ) (catOf : PVid → String)
    (initStats : List (String × ℕ)) (dry : Bool)
    (moveFails sinkFails : ℕ → Bool) (fs : FS) :
    Except PyErr (SortRes × FS) :=
  match previewFS cfg sqrtFn noFail fs with
  | .error e => .error e
  | .ok (pvids, errs) =>
    if pvids = [] then .ok (⟨0, 0, []⟩, fs)
    else
      match sortLoop dry moveFails sinkFails catOf pvids 0 ⟨0, initStats, fs⟩ with
      | .error e => .error e
      | .ok st => .ok (⟨st.moved, errs.length, st.stats⟩, st.fs)

/-- `sort_by_orientation` (lines 665-701): destination is the
orientation, stats keys `horizontal`/`vertical`. -/
def sort_by_orientation (cfg : Config) (sqrtFn : ℚ → ℚ) (dry : Bool)
    (moveFails sinkFails : ℕ → Bool) (fs : FS) :
    Except PyErr (SortRes × FS) :=
  sortGeneric cfg sqrtFn (fun pv => pv.orientation)
    [("horizontal", 0), ("vertical", 0)] dry moveFails sinkFails fs

/-- `sort_by_duration` (lines 704-740): destination is the duration
category, stats keys `short`/`medium`/`long` (line 723). -/
def sort_by_duration (cfg : Config) (sqrtFn : ℚ → ℚ) (dry : Bool)
    (moveFails sinkFails : ℕ → Bool) (fs : FS) :
    Except PyErr (SortRes × FS) :=
  sortGeneric cfg sqrtFn (fun pv => pv.durationCat)
    [("short", 0), ("medium", 0), ("long", 0)] dry moveFails sinkFails fs

/-- `sort_by_quality` (lines 743-779): destination is the quality
category, stats keys `high`/`medium`/`low`/`unknown` (line 762). -/
def sort_by_quality (cfg : Config) (sqrtFn : ℚ → ℚ) (dry : Bool)
    (moveFails sinkFails : ℕ → Bool) (fs : FS) :
    Except PyErr (SortRes × FS) :=
  sortGeneric cfg sqrtFn (fun pv => pv.qualityCat)
    [("high", 0), ("medium", 0), ("low", 0), ("unknown", 0)]
    dry moveFails sinkFails fs

/-!  ## Reset / flatten (`reset_sorting`, lines 963-1037) -/

/-- The `{moved, errors}` result of `reset_sorting`. -/
structure ResetRes where
  moved : ℕ
  errors : ℕ
deriving DecidableEq, Repr

/-- The `os.walk` collection pass (lines 981-993): every video file in a
subdirectory, paired with its directory, in walk order. -/
def filesToMove (cfg : Config) (fs : FS) : List (String × Video) :=
  fs.subdirs.flatMap fun p =>
    (p.2.filter (isVideoFile cfg)).map (fun v => (p.1, v))

/-- The collision loop of `reset_sorting` (lines 1009-1015): if the
destination filename exists at the root, try `base_1.ext`, `base_2.ext`,
… until a free name is found; returns the stem of the destination.  The
search range always contains a free name (there are more candidates than
root entries); the defensive `none` branch is never reached in the
theorems below. -/
def resolveBase (fs : FS) (v : Video) : String :=
  if fs.existsRoot v.render then
    match (List.range (fs.rootFiles.length + fs.subdirs.length + 1)).find?
        (fun j => ¬ fs.existsRoot (v.base ++ "_" ++ toString (j + 1) ++ v.ext)) with
    | some j => v.base ++ "_" ++ toString (j + 1)
    | none => v.base ++ "_0"
  else v.base

/-- State threaded through the reset move loop. -/
structure ResetSt where
  moved : ℕ
  errors : ℕ
  fs : FS
deriving DecidableEq, Repr

/-- The move loop of `reset_sorting` (lines 1001-1024): per file, invoke
the (unguarded) progress callback, resolve the collision-free
destination name, then — in live mode — `shutil.move` inside a
`try/except` that counts a failure as an error and continues; dry-run
counts the file as moved without touching the filesystem. -/
def resetLoop (dry : Bool) (moveFails sinkFails : ℕ → Bool) :
    List (String × Video) → ℕ → ResetSt → Except PyErr ResetSt
  | [], _, st => .ok st
  | (d, v) :: rest, i, st =>
    if sinkFails i then .error .sinkErr
    else
      let base' := resolveBase st.fs v
      if dry then
        resetLoop dry moveFails sinkFails rest (i + 1)
          ⟨st.moved + 1, st.errors, st.fs⟩
      else if moveFails i then
        resetLoop dry moveFails sinkFails rest (i + 1)
          ⟨st.moved, st.errors + 1, st.fs⟩
      else
        resetLoop dry moveFails sinkFails rest (i + 1)
          ⟨st.moved + 1, st.errors,
           st.fs.moveDirToRoot d v { v with base := base' }⟩

/-- The bottom-up empty-directory pruning after the moves
(lines 1027-1035): a directory is removed exactly when listing it yields
no entries. -/
def FS.prune (fs : FS) : FS :=
  ⟨fs.rootFiles, fs.subdirs.filter (fun p => ¬ p.2 = [])⟩

/-- `reset_sorting` (lines 963-1037). -/
def reset_sorting (cfg : Config) (dry : Bool)
    (moveFails sinkFails : ℕ → Bool) (fs : FS) :
    Except PyErr (ResetRes × FS) :=
  let l := filesToMove cfg fs
  if l = [] then .ok (⟨0, 0⟩, fs)
  else
    match resetLoop dry moveFails sinkFails l 0 ⟨0, 0, fs⟩ with
    | .error e => .error e
    | .ok st => .ok (⟨st.moved, st.errors⟩, if dry then st.fs else st.fs.prune)

/-!  ## Concrete test data used by counterexamples and witnesses -/

/-- A 200×100 (horizontal) video `a.mp4`. -/
def exA : Video := ⟨"a", ".mp4", 200, 100, 30, 10, 0, true⟩

/-- A 100×200 (vertical) video `b.mp4`. -/
def exB : Video := ⟨"b", ".mp4", 100, 200, 30, 10, 0, true⟩

/-- A second, distinct file also named `a.mp4` (different metadata). -/
def exA' : Video := ⟨"a", ".mp4", 100, 200, 30, 99, 0, true⟩

/-- A video with `fps = 0` but positive resolution and bitrate. -/
def exFps0 : Video := ⟨"z", ".mp4", 100, 100, 0, 10, 1000, true⟩

/-- Placeholder for `math.sqrt` in runs whose method is `fixed`: such
runs never invoke the square root, so its value is irrelevant there. -/
def sqrtZero : ℚ → ℚ := fun _ => 0

/-- Oracle that fails exactly on the first (index 0) invocation. -/
def failAt0 : ℕ → Bool := fun i => i = 0

/-- A model of `math.sqrt` that is exact at the one input (4) where the
counterexample run evaluates it. -/
def sqrtEx : ℚ → ℚ := fun q => if q = 4 then 2 else 0

/-- A root entry that is a regular *file* named exactly `horizontal`
(empty extension), the name the orientation sort uses as a destination
directory.  Its extension is not a video extension, so it is never part
of a sort batch. -/
def exDirName : Video := ⟨"horizontal", "", 0, 0, 0, 0, 0, true⟩

/-- A video whose duration is `0`: with a dynamic duration method the
positive-duration sample is empty, the thresholds degenerate to `[]`
and the plain labels are used. -/
def exD0 : Video := ⟨"d", ".mp4", 100, 100, 30, 0, 500, true⟩

/-- The default configuration with the dynamic `percentile` duration
method. -/
def pctConfig : Config := { defaultConfig with durationMethod := "percentile" }

/-!  # Helper lemmas -/

theorem getLastD_eq_getD : ∀ (l : List String) (d : String),
    l.getLastD d = l.getD (l.length - 1) d
  | [], _ => rfl
  | [_], _ => rfl
  | _ :: b :: t, d => by
    simpa using getLastD_eq_getD (b :: t) d

theorem findIdx?_eq_some_helper (p : ℚ → Bool) :
    ∀ (l : List ℚ) (s i : ℕ), i < l.length →
      (∀ j, j < i → p (l.getD j 0) = false) → p (l.getD i 0) = true →
      l.findIdx? p s = some (s + i)
  | [], _, i, hi, _, _ => absurd hi (by simp)
  | x :: _, s, 0, _, _, hp => by
    have hx : p x = true := by simpa using hp
    simp [List.findIdx?_cons, hx]
  | x :: xs, s, i + 1, hi, hj, hp => by
    have hx : p x = false := by simpa using hj 0 (Nat.succ_pos i)
    rw [List.findIdx?_cons, hx]
    have ih := findIdx?_eq_some_helper p xs (s + 1) i (by simpa using hi)
      (fun j hj' => by simpa using hj (j + 1) (by omega))
      (by simpa using hp)
    simp only [Bool.false_eq_true, if_false, ih]
    congr 1
    omega

theorem sorted_getD_le {l : List ℚ} (h : l.Sorted (· ≤ ·)) {i j : ℕ}
    (hij : i ≤ j) (hj : j < l.length) : l.getD i 0 ≤ l.getD j 0 := by
  rcases Nat.eq_or_lt_of_le hij with rfl | hlt
  · exact le_refl _
  · have hi : i < l.length := lt_trans hlt hj
    rw [List.getD_eq_getElem _ _ hi, List.getD_eq_getElem _ _ hj]
    exact List.pairwise_iff_getElem.mp h i j hi hj hlt

/-!  # Claim C3 — categorizer semantics -/

/-- **C3**: for a non-empty ascending threshold list and a label list one
longer, `categorize_by_thresholds` maps values below the first threshold
to the first label, values in the half-open interval
`[thresholds[i-1], thresholds[i])` to `labels[i]`, and values at or above
the last threshold to the last label; in particular with a single
threshold `t`, any `t - ε` (ε > 0) gets the lower label and `t` itself
the upper label. -/
theorem C3_categorizer_semantics (ts : List ℚ) (labels : List String)
    (value : ℚ) (hne : ts ≠ []) (hsort : ts.Sorted (· ≤ ·))
    (hlen : labels.length = ts.length + 1) :
    (value < ts.getD 0 0 →
      categorize_by_thresholds value ts labels = labels.getD 0 "") ∧
    (∀ i, 0 < i → i < ts.length → ts.getD (i - 1) 0 ≤ value →
      value < ts.getD i 0 →
      categorize_by_thresholds value ts labels = labels.getD i "") ∧
    (ts.getD (ts.length - 1) 0 ≤ value →
      categorize_by_thresholds value ts labels = labels.getD ts.length "") ∧
    (∀ (t ε : ℚ), 0 < ε → ∀ l0 l1 : String,
      categorize_by_thresholds (t - ε) [t] [l0, l1] = l0 ∧
      categorize_by_thresholds t [t] [l0, l1] = l1) := by
  have hlt : 0 < ts.length := List.length_pos.mpr hne
  refine ⟨?_, ?_, ?_, ?_⟩
  · intro hv
    have hfi := findIdx?_eq_some_helper (fun t => value < t) ts 0 0 hlt
      (fun j hj => absurd hj (Nat.not_lt_zero j))
      (by simpa using hv)
    rw [Nat.zero_add] at hfi
    unfold categorize_by_thresholds
    rw [if_neg hne, hfi]
  · intro i hi0 hilen hlow hhigh
    have hfi := findIdx?_eq_some_helper (fun t => value < t) ts 0 i hilen
      (fun j hj => by
        have hmono : ts.getD j 0 ≤ ts.getD (i - 1) 0 :=
          sorted_getD_le hsort (by omega) (by omega)
        simpa using not_lt.mpr (le_trans hmono hlow))
      (by simpa using hhigh)
    rw [Nat.zero_add] at hfi
    unfold categorize_by_thresholds
    rw [if_neg hne, hfi]
  · intro hv
    have hfi : ts.findIdx? (fun t => value < t) = none := by
      rw [List.findIdx?_eq_none_iff]
      intro x hx
      rcases List.mem_iff_getElem.mp hx with ⟨k, hk, rfl⟩
      have hmono : ts.getD k 0 ≤ ts.getD (ts.length - 1) 0 :=
        sorted_getD_le hsort (by omega) (by omega)
      rw [List.getD_eq_getElem _ _ hk] at hmono
      simpa using not_lt.mpr (le_trans hmono hv)
    have hlast : labels.getLastD "" = labels.getD ts.length "" := by
      rw [getLastD_eq_getD, hlen]
      simp
    unfold categorize_by_thresholds
    rw [if_neg hne, hfi]
    exact hlast
  · intro t ε hε l0 l1
    constructor
    · have hlt' : t - ε < t := by linarith
      have hfi : List.findIdx? (fun x => decide (t - ε < x)) [t] 0 = some 0 := by
        rw [List.findIdx?_cons]
        simp [hlt']
      unfold categorize_by_thresholds
      rw [if_neg (by simp), hfi]
      rfl
    · have hfi : List.findIdx? (fun x => decide (t < x)) [t] 0 = none := by
        rw [List.findIdx?_cons]
        simp
      unfold categorize_by_thresholds
      rw [if_neg (by simp), hfi]
      rfl

/-- Witness for C3 at `thresholds = [60, 300]`,
`labels = ["short", "medium", "long"]`. -/
theorem C3_witness :
    categorize_by_thresholds 100 [60, 300] ["short", "medium", "long"] =
      "medium" ∧
    categorize_by_thresholds 299 [60, 300] ["short", "medium", "long"] =
      "medium" ∧
    categorize_by_thresholds 300 [60, 300] ["short", "medium", "long"] =
      "long" := by
  refine ⟨?_, ?_, ?_⟩
  · have h := (C3_categorizer_semantics [60, 300] ["short", "medium", "long"]
      100 (by decide) (by decide) (by decide)).2.1 1 (by decide) (by decide)
      (by decide) (by decide)
    simpa using h
  · have h := (C3_categorizer_semantics [60, 300] ["short", "medium", "long"]
      299 (by decide) (by decide) (by decide)).2.1 1 (by decide) (by decide)
      (by decide) (by decide)
    simpa using h
  · have h := (C3_categorizer_semantics [60, 300] ["short", "medium", "long"]
      300 (by decide) (by decide) (by decide)).2.2.1 (by decide)
    simpa using h

/-!  # Claim C4 — jenks falls back to percentile on small samples -/

/-- **C4 (amended)**: for a sample with more values than requested
categories but fewer than 20 values, `calculate_thresholds_jenks`
returns exactly the percentile thresholds.  (The original claim, for
*every* `num_categories`, fails: samples of size `≤ num_categories` hit
the earlier degenerate guards, see `C4_counterexample`.) -/
theorem C4_jenks_percentile_fallback (values : List ℚ) (nc : ℕ)
    (h1 : nc < values.length) (h2 : values.length < 20) :
    calculate_thresholds_jenks values nc =
      calculate_thresholds_percentile values nc := by
  have hne : ¬(values = [] ∨ values.length < nc) := by
    rintro (rfl | hlen)
    · simp at h1
    · omega
  rw [calculate_thresholds_jenks, if_neg hne]
  simp only [List.length_mergeSort]
  rw [if_neg (by omega : ¬ values.length ≤ nc), if_pos h2]

/-- Witness for C4 on a 5-value sample with 3 categories. -/
theorem C4_witness :
    calculate_thresholds_jenks [1, 2, 3, 4, 5] 3 =
      calculate_thresholds_percentile [1, 2, 3, 4, 5] 3 :=
  C4_jenks_percentile_fallback [1, 2, 3, 4, 5] 3 (by decide) (by decide)

/-- **C4 counterexample**: the claim as stated ("for every
num_categories") fails: the non-empty 2-value sample `[1, 2]` with
`num_categories = 3` (fewer than 20 values) makes jenks return `[]`
while percentile returns two thresholds. -/
theorem C4_counterexample :
    ([1, 2] : List ℚ) ≠ [] ∧ ([1, 2] : List ℚ).length < 20 ∧
    calculate_thresholds_jenks [1, 2] 3 = [] ∧
    calculate_thresholds_percentile [1, 2] 3 = [133/100, 166/100] := by
  decide

/-!  # Claim C8 — derived optimal bitrate and quality ratio -/

/-- Every analyzed record comes from `mkAVid` on a file of the listing. -/
theorem analyzeLoop_mem (cfg : Config) (sf : ℕ → Bool) :
    ∀ (l : List Video) (i : ℕ) (avids : List AVid) (errs : List String),
      analyzeLoop cfg sf l i = .ok (avids, errs) →
      ∀ a ∈ avids, ∃ v, a = mkAVid cfg v := by
  intro l
  induction l with
  | nil =>
    intro i avids errs h a ha
    simp only [analyzeLoop] at h
    cases h
    simp at ha
  | cons v rest ih =>
    intro i avids errs h a ha
    simp only [analyzeLoop] at h
    by_cases hs : sf i
    · simp [hs] at h
    · rw [if_neg hs] at h
      cases hrec : analyzeLoop cfg sf rest (i + 1) with
      | error e => rw [hrec] at h; simp at h
      | ok p =>
        obtain ⟨av, es⟩ := p
        rw [hrec] at h
        by_cases hp : v.probeOk
        · simp only [hp, if_true, Except.ok.injEq, Prod.mk.injEq] at h
          obtain ⟨h1, h2⟩ := h
          subst h1
          rcases List.mem_cons.mp ha with rfl | hmem
          · exact ⟨v, rfl⟩
          · exact ih (i + 1) av es hrec a hmem
        · simp only [hp, if_false, Bool.false_eq_true, Except.ok.injEq,
            Prod.mk.injEq] at h
          obtain ⟨h1, h2⟩ := h
          subst h1
          exact ih (i + 1) av es hrec a ha

/-- **C8 (amended)**: for every record produced by the analysis pass,
`optimal_bitrate = width·height·fps'·bitrate_factor` where `fps'` is
`fps` when positive and the default `30` when `fps ≤ 0`, and
`quality_ratio = bitrate / optimal_bitrate` with `quality_ratio = 0`
whenever `optimal_bitrate ≤ 0` or `bitrate = 0`; in particular a file
with zero resolution gets quality ratio 0.  (The original claim's
`optimal_bitrate = width·height·fps·bitrate_factor` and "fps = 0 gets
quality_ratio 0" fail, see `C8_counterexample`.) -/
theorem C8_derived_quantities (cfg : Config) (sf : ℕ → Bool) (fs : FS)
    (avids : List AVid) (errs : List String)
    (h : analyzeFS cfg sf fs = .ok (avids, errs)) :
    ∀ a ∈ avids,
      a.optimalBitrate = (a.video.width : ℚ) * (a.video.height : ℚ) *
        (if a.video.fps ≤ 0 then 30 else a.video.fps) * cfg.bitrateFactor ∧
      a.qualityRatio =
        (if 0 < a.optimalBitrate ∧ 0 < a.video.bitrate
          then (a.video.bitrate : ℚ) / a.optimalBitrate else 0) ∧
      (a.optimalBitrate = 0 ∨ a.video.bitrate = 0 → a.qualityRatio = 0) ∧
      (a.video.width = 0 ∨ a.video.height = 0 → a.qualityRatio = 0) := by
  intro a ha
  obtain ⟨v, rfl⟩ := analyzeLoop_mem cfg sf _ 0 avids errs h a ha
  simp only [mkAVid]
  refine ⟨rfl, rfl, ?_, ?_⟩
  · rintro (hopt | hbit)
    · simp [qualityRatioOf, hopt]
    · simp [qualityRatioOf, hbit]
  · rintro (hz | hz) <;>
      simp [qualityRatioOf, calculate_optimal_bitrate, hz]

/-- Witness for C8 on the one-file directory `[exA]`. -/
theorem C8_witness :
    (mkAVid defaultConfig exA).optimalBitrate =
      (exA.width : ℚ) * (exA.height : ℚ) *
        (if exA.fps ≤ 0 then 30 else exA.fps) * defaultConfig.bitrateFactor ∧
    (mkAVid defaultConfig exA).qualityRatio = 0 := by
  have h := C8_derived_quantities defaultConfig noFail ⟨[exA], []⟩
    [mkAVid defaultConfig exA] [] (by decide)
    (mkAVid defaultConfig exA) (by simp)
  exact ⟨h.1, h.2.2.1 (Or.inr (by decide))⟩

/-- **C8 counterexample**: a probed file with `fps = 0`, resolution
100×100 and bitrate 1000 has `optimal_bitrate = 100·100·30·0.13 ≠
100·100·0·0.13` (the code substitutes 30 for a non-positive fps) and a
*non-zero* quality ratio, contradicting "a file with fps = 0 … gets
quality_ratio 0". -/
theorem C8_counterexample :
    (mkAVid defaultConfig exFps0).optimalBitrate ≠
      (exFps0.width : ℚ) * (exFps0.height : ℚ) * exFps0.fps *
        defaultConfig.bitrateFactor ∧
    (mkAVid defaultConfig exFps0).qualityRatio ≠ 0 := by
  decide

/-!  # Claim C10 — bitrate category boundary -/

/-- **C10**: in `sort_by_bitrate` and in the bitrate segment of
`sort_by_pipeline`, a file is assigned the low category exactly when
`0 < bitrate < bitrate_threshold * 1000` (bps); a file with bitrate 0
is assigned the normal category. -/
theorem C10_bitrate_low_iff (t b : ℕ) :
    (bitrateCategoryOf t b = "low_under_" ++ toString t ++ "kbps" ↔
      0 < b ∧ b < t * 1000) ∧
    (b = 0 → bitrateCategoryOf t b = "normal_over_" ++ toString t ++ "kbps") := by
  have hlow : ("low_under_" : String).length = 10 := by decide
  have hnorm : ("normal_over_" : String).length = 12 := by decide
  have hne : ("normal_over_" ++ toString t ++ "kbps" : String) ≠
      "low_under_" ++ toString t ++ "kbps" := by
    intro hcon
    have hlen := congrArg String.length hcon
    simp only [String.length_append, hlow, hnorm] at hlen
    omega
  constructor
  · constructor
    · intro hcat
      by_contra hc
      rw [bitrateCategoryOf, if_neg hc] at hcat
      exact hne hcat
    · intro hc
      rw [bitrateCategoryOf, if_pos hc]
  · intro hb
    subst hb
    rw [bitrateCategoryOf, if_neg (by simp)]

/-- Witness for C10 at the default 300 kbps threshold. -/
theorem C10_witness :
    bitrateCategoryOf 300 299999 = "low_under_" ++ toString 300 ++ "kbps" ∧
    bitrateCategoryOf 300 0 = "normal_over_" ++ toString 300 ++ "kbps" :=
  ⟨(C10_bitrate_low_iff 300 299999).1.mpr (by decide),
   (C10_bitrate_low_iff 300 0).2 rfl⟩

/-!  # Claim C7 — threshold-set invariant for percentile and stddev -/

/-- For `k ≥ 0`, Python's `int(k)` is the floor, bracketing `k`. -/
theorem pyInt_bounds {k : ℚ} (hk : 0 ≤ k) :
    (((pyInt k).toNat : ℚ) ≤ k) ∧ (k < ((pyInt k).toNat : ℚ) + 1) := by
  have hpy : pyInt k = k.floor := by
    unfold pyInt
    rw [if_neg (not_lt.mpr hk)]
  have h0 : 0 ≤ k.floor := Rat.le_floor.mpr (by exact_mod_cast hk)
  have h1 : ((k.floor : ℤ) : ℚ) ≤ k := Rat.le_floor.mp (le_refl _)
  have h2 : k < ((k.floor : ℤ) : ℚ) + 1 := by
    by_contra hcon
    push_neg at hcon
    have hstep : k.floor + 1 ≤ k.floor := Rat.le_floor.mpr (by push_cast; linarith)
    omega
  have htn : ((pyInt k).toNat : ℤ) = k.floor := by
    rw [hpy]; exact Int.toNat_of_nonneg h0
  have hcast : ((pyInt k).toNat : ℚ) = ((k.floor : ℤ) : ℚ) := by
    exact_mod_cast congrArg (fun z : ℤ => (z : ℚ)) htn
  exact ⟨by rw [hcast]; exact h1, by rw [hcast]; exact h2⟩

/-- Monotonicity of the interpolation kernel over a sorted sample. -/
theorem interp_mono {s : List ℚ} (hs : s.Sorted (· ≤ ·))
    {k k' : ℚ} (hk0 : 0 ≤ k) (hkk : k ≤ k') (hk1 : k' ≤ (s.length : ℚ) - 1) :
    interp s k ≤ interp s k' := by
  have hk'0 : 0 ≤ k' := le_trans hk0 hkk
  obtain ⟨hfk1, hfk2⟩ := pyInt_bounds hk0
  obtain ⟨hf'k1, hf'k2⟩ := pyInt_bounds hk'0
  set f : ℕ := (pyInt k).toNat with hfdef
  set f' : ℕ := (pyInt k').toNat with hf'def
  have hff' : f ≤ f' := by
    by_contra hcon
    push_neg at hcon
    have hq : (f' : ℚ) + 1 ≤ (f : ℚ) := by exact_mod_cast hcon
    linarith
  have hf'len : f' < s.length := by
    have hq : (f' : ℚ) ≤ (s.length : ℚ) - 1 := le_trans hf'k1 hk1
    have hq' : (f' : ℚ) + 1 ≤ (s.length : ℚ) := by linarith
    exact_mod_cast hq'
  have hc0 : 0 ≤ k - (f : ℚ) := by linarith
  have hc1 : k - (f : ℚ) ≤ 1 := by linarith
  have hc'0 : 0 ≤ k' - (f' : ℚ) := by linarith
  have hc'1 : k' - (f' : ℚ) ≤ 1 := by linarith
  have hik : interp s k =
      (if f + 1 < s.length then
        s.getD f 0 * (1 - (k - (f : ℚ))) + s.getD (f + 1) 0 * (k - (f : ℚ))
      else s.getD f 0) := rfl
  have hik' : interp s k' =
      (if f' + 1 < s.length then
        s.getD f' 0 * (1 - (k' - (f' : ℚ))) + s.getD (f' + 1) 0 * (k' - (f' : ℚ))
      else s.getD f' 0) := rfl
  rcases Nat.eq_or_lt_of_le hff' with heq | hlt
  · -- same integer part: linear interpolation is monotone in the fraction
    rw [hik, hik', ← heq]
    rw [← heq] at hc'0 hc'1 hf'k1
    by_cases hbr : f + 1 < s.length
    · rw [if_pos hbr, if_pos hbr]
      have hab : s.getD f 0 ≤ s.getD (f + 1) 0 :=
        sorted_getD_le hs (Nat.le_succ f) hbr
      have hcc : k - (f : ℚ) ≤ k' - (f : ℚ) := by linarith
      nlinarith [hab, hcc, hc0]
    · rw [if_neg hbr, if_neg hbr]
  · -- strictly larger integer part: pass through the order statistics
    have hbr : f + 1 < s.length := by omega
    have h1 : interp s k ≤ s.getD (f + 1) 0 := by
      rw [hik, if_pos hbr]
      have hab : s.getD f 0 ≤ s.getD (f + 1) 0 :=
        sorted_getD_le hs (Nat.le_succ f) hbr
      nlinarith [hab, hc0, hc1]
    have h2 : s.getD (f + 1) 0 ≤ s.getD f' 0 :=
      sorted_getD_le hs (by omega) hf'len
    have h3 : s.getD f' 0 ≤ interp s k' := by
      rw [hik']
      by_cases hbr' : f' + 1 < s.length
      · rw [if_pos hbr']
        have hab : s.getD f' 0 ≤ s.getD (f' + 1) 0 :=
          sorted_getD_le hs (Nat.le_succ f') hbr'
        nlinarith [hab, hc'0, hc'1]
      · rw [if_neg hbr']
    linarith

/-- `_percentile` is monotone in `p` over `[0, 1]`. -/
theorem pyPercentile_mono (values : List ℚ) (hne : values ≠ [])
    {p p' : ℚ} (hp0 : 0 ≤ p) (hpp : p ≤ p') (hp1 : p' ≤ 1) :
    pyPercentile values p ≤ pyPercentile values p' := by
  have hlen : 0 < values.length := List.length_pos.mpr hne
  have hsort : (values.mergeSort (fun a b => a ≤ b)).Sorted (· ≤ ·) :=
    List.sorted_mergeSort' values
  have hslen : (values.mergeSort (fun a b => a ≤ b)).length = values.length :=
    List.length_mergeSort values
  have hlen1 : (1 : ℚ) ≤ ((values.mergeSort (fun a b => a ≤ b)).length : ℚ) := by
    rw [hslen]; exact_mod_cast hlen
  have hmono := @interp_mono (values.mergeSort (fun a b => a ≤ b)) hsort
    ((((values.mergeSort (fun a b => a ≤ b)).length : ℚ) - 1) * p)
    ((((values.mergeSort (fun a b => a ≤ b)).length : ℚ) - 1) * p')
    (mul_nonneg (by linarith) hp0)
    (mul_le_mul_of_nonneg_left hpp (by linarith))
    (by nlinarith)
  unfold pyPercentile
  rw [if_neg hne, if_neg hne]
  exact hmono

/-- **C7 (amended)**: for every sample with at least 3 values, not all
equal, the percentile method with 3 categories returns exactly 2
non-decreasing thresholds; the stddev method does too **provided the
sample values are non-negative** (for `math.sqrt`, any model of it that
is non-negative at the sample variance suffices).  (The original claim,
over arbitrary samples, fails for stddev on negative samples because the
lower threshold is clamped to 0 while the upper one can be negative, see
`C7_counterexample`.) -/
theorem C7_threshold_invariant (S : List ℚ) (h3 : 3 ≤ S.length)
    (hvar : ¬ ∀ x ∈ S, ∀ y ∈ S, x = y) :
    ((calculate_thresholds_percentile S 3).length = 2 ∧
      (calculate_thresholds_percentile S 3).getD 0 0 ≤
        (calculate_thresholds_percentile S 3).getD 1 0) ∧
    (∀ sqrtFn : ℚ → ℚ, 0 ≤ sqrtFn (pyVariance S) → (∀ x ∈ S, 0 ≤ x) →
      (calculate_thresholds_stddev sqrtFn S 3).length = 2 ∧
      (calculate_thresholds_stddev sqrtFn S 3).getD 0 0 ≤
        (calculate_thresholds_stddev sqrtFn S 3).getD 1 0) := by
  have hne : S ≠ [] := by
    intro h
    rw [h] at h3
    simp at h3
  constructor
  · unfold calculate_thresholds_percentile
    rw [if_neg hne, if_neg (by omega)]
    refine ⟨rfl, ?_⟩
    simpa using pyPercentile_mono S hne (by norm_num) (by norm_num)
      (by norm_num : (66 / 100 : ℚ) ≤ 1)
  · intro sqrtFn hsq hpos
    have hmean : 0 ≤ pyMean S := by
      unfold pyMean
      rw [if_neg hne]
      have hsum : 0 ≤ S.sum := List.sum_nonneg hpos
      positivity
    have hstd : pyStddev sqrtFn S = sqrtFn (pyVariance S) := by
      unfold pyStddev
      rw [if_neg (by omega)]
    unfold calculate_thresholds_stddev
    rw [if_neg hne, if_neg (by omega)]
    refine ⟨rfl, ?_⟩
    rw [hstd]
    simp only [List.getD_cons_zero, List.getD_cons_succ]
    have h1 : pyMean S - (1/2) * sqrtFn (pyVariance S) ≤
        pyMean S + (1/2) * sqrtFn (pyVariance S) := by linarith
    have h2 : (0 : ℚ) ≤ pyMean S + (1/2) * sqrtFn (pyVariance S) := by linarith
    exact max_le h2 h1

/-- Witness for C7 on the sample `[1, 2, 3]` (with the placeholder
square root, which is non-negative everywhere). -/
theorem C7_witness :
    ((calculate_thresholds_percentile [1, 2, 3] 3).length = 2 ∧
      (calculate_thresholds_percentile [1, 2, 3] 3).getD 0 0 ≤
        (calculate_thresholds_percentile [1, 2, 3] 3).getD 1 0) ∧
    ((calculate_thresholds_stddev sqrtZero [1, 2, 3] 3).length = 2 ∧
      (calculate_thresholds_stddev sqrtZero [1, 2, 3] 3).getD 0 0 ≤
        (calculate_thresholds_stddev sqrtZero [1, 2, 3] 3).getD 1 0) := by
  have h := C7_threshold_invariant [1, 2, 3] (by decide) (by decide)
  exact ⟨h.1, h.2 sqrtZero (by decide) (by decide)⟩

/-- **C7 counterexample**: on the all-negative sample
`[-8, -8, -12, -12]` (mean −10, variance 4, so the true
`math.sqrt` value is 2 — `sqrtEx` is exact there), the stddev method
with 3 categories returns `[0, -9]`, whose thresholds are
*decreasing*, refuting the claim for arbitrary samples. -/
theorem C7_counterexample :
    3 ≤ ([-8, -8, -12, -12] : List ℚ).length ∧
    ¬ (∀ x ∈ ([-8, -8, -12, -12] : List ℚ),
        ∀ y ∈ ([-8, -8, -12, -12] : List ℚ), x = y) ∧
    sqrtEx (pyVariance [-8, -8, -12, -12]) ^ 2 =
      pyVariance [-8, -8, -12, -12] ∧
    0 ≤ sqrtEx (pyVariance [-8, -8, -12, -12]) ∧
    calculate_thresholds_stddev sqrtEx [-8, -8, -12, -12] 3 = [0, -9] ∧
    ¬ ((calculate_thresholds_stddev sqrtEx [-8, -8, -12, -12] 3).getD 0 0 ≤
        (calculate_thresholds_stddev sqrtEx [-8, -8, -12, -12] 3).getD 1 0) := by
  decide

/-!  # Claim C5 — dry-run vs live equivalence -/

/-- Computation rules of `Except.map`. -/
theorem exceptMap_error {ε α β : Type} (f : α → β) (e : ε) :
    Except.map f (Except.error e : Except ε α) = Except.error e := rfl

theorem exceptMap_ok {ε α β : Type} (f : α → β) (a : α) :
    Except.map f (Except.ok a : Except ε α) = Except.ok (f a) := rfl

/-- If the live move loop completes, the dry-run move loop started from
the same counters and stats completes with the same moved count and
stats, on its own untouched filesystem: the `dry_run` flag only guards
the `makedirs`/`move` calls. -/
theorem sortLoop_live_ok_dry (cf : PVid → String) (mf : ℕ → Bool) :
    ∀ (l : List PVid) (i m : ℕ) (stats : List (String × ℕ)) (fs1 fs2 : FS)
      (st' : SortSt),
      sortLoop false noFail noFail cf l i ⟨m, stats, fs2⟩ = .ok st' →
      sortLoop true mf noFail cf l i ⟨m, stats, fs1⟩ =
        .ok ⟨st'.moved, st'.stats, fs1⟩
  | [], i, m, stats, fs1, fs2, st', h => by
    simp only [sortLoop] at h ⊢
    injection h with h1
    rw [← h1]
  | pv :: rest, i, m, stats, fs1, fs2, st', h => by
    cases he : FS.ensureDir fs2 (cf pv) with
    | error e =>
      simp only [sortLoop, noFail, Bool.false_eq_true, if_false, if_true,
        he] at h
      exact (Except.noConfusion h)
    | ok fsE =>
      cases hb : bumpKey stats (cf pv) with
      | error e =>
        simp only [sortLoop, noFail, Bool.false_eq_true, if_false, if_true,
          he, hb] at h
        exact (Except.noConfusion h)
      | ok stats' =>
        simp only [sortLoop, noFail, Bool.false_eq_true, if_false, if_true,
          he, hb] at h ⊢
        exact sortLoop_live_ok_dry cf mf rest (i + 1) (m + 1) stats' fs1
          (fsE.moveRootToDir (cf pv) pv.video) st' h

/-- A dry-run move loop never touches the filesystem. -/
theorem sortLoop_dry_fs (cf : PVid → String) (mf sf : ℕ → Bool) :
    ∀ (l : List PVid) (i : ℕ) (st : SortSt),
      (sortLoop true mf sf cf l i st).map (fun st' => st'.fs) =
        (sortLoop true mf sf cf l i st).map (fun _ => st.fs)
  | [], _, _ => rfl
  | pv :: rest, i, st => by
    simp only [sortLoop]
    by_cases hs : sf i
    · rw [if_pos hs]
      rfl
    · rw [if_neg hs]
      simp only [if_true]
      cases hb : bumpKey st.stats (cf pv) with
      | error e => rfl
      | ok stats' =>
        exact sortLoop_dry_fs cf mf sf rest (i + 1) ⟨st.moved + 1, stats', st.fs⟩

/-- Whenever live `sortGeneric` returns a `{moved, errors, stats}`
result, the dry run returns exactly the same result together with the
untouched input filesystem. -/
theorem sortGeneric_live_ok_dry (cfg : Config) (sqrtFn : ℚ → ℚ)
    (catOf : PVid → String) (initStats : List (String × ℕ))
    (mf : ℕ → Bool) (fs : FS) (res : SortRes) (fsL : FS)
    (h : sortGeneric cfg sqrtFn catOf initStats false noFail noFail fs =
      .ok (res, fsL)) :
    sortGeneric cfg sqrtFn catOf initStats true mf noFail fs =
      .ok (res, fs) := by
  cases hp : previewFS cfg sqrtFn noFail fs with
  | error e =>
    simp only [sortGeneric, hp] at h
    exact (Except.noConfusion h)
  | ok pr =>
    obtain ⟨pvids, errs⟩ := pr
    simp only [sortGeneric, hp] at h ⊢
    by_cases hpe : pvids = []
    · rw [if_pos hpe] at h ⊢
      injection h with h1
      rw [Prod.mk.injEq] at h1
      rw [← h1.1]
    · rw [if_neg hpe] at h ⊢
      cases hl : sortLoop false noFail noFail catOf pvids 0 ⟨0, initStats, fs⟩ with
      | error e =>
        rw [hl] at h
        exact (Except.noConfusion h)
      | ok st' =>
        simp only [hl] at h
        have hd := sortLoop_live_ok_dry catOf mf pvids 0 0 initStats fs fs st' hl
        simp only [hd]
        injection h with h1
        rw [Prod.mk.injEq] at h1
        rw [← h1.1]

/-- A dry-run `sortGeneric` never touches the filesystem. -/
theorem sortGeneric_dry_fs (cfg : Config) (sqrtFn : ℚ → ℚ)
    (catOf : PVid → String) (initStats : List (String × ℕ))
    (mf : ℕ → Bool) (fs : FS) :
    (sortGeneric cfg sqrtFn catOf initStats true mf noFail fs).map Prod.snd =
      (sortGeneric cfg sqrtFn catOf initStats true mf noFail fs).map
        (fun _ => fs) := by
  cases hp : previewFS cfg sqrtFn noFail fs with
  | error e =>
    simp only [sortGeneric, hp]
    rfl
  | ok pr =>
    obtain ⟨pvids, errs⟩ := pr
    by_cases hpe : pvids = []
    · subst hpe
      simp [sortGeneric, hp]
      rfl
    · have hfs := sortLoop_dry_fs catOf mf noFail pvids 0 ⟨0, initStats, fs⟩
      simp only [sortGeneric, hp]
      rw [if_neg hpe]
      cases h1 : sortLoop true mf noFail catOf pvids 0 ⟨0, initStats, fs⟩ with
      | error e =>
        simp only [h1]
        rfl
      | ok st1 =>
        rw [h1, exceptMap_ok, exceptMap_ok] at hfs
        injection hfs with hfs'
        simp only [h1, exceptMap_ok]
        rw [hfs']

/-- In dry-run mode the reset loop counts every file as moved, touches
nothing, and reports no errors. -/
theorem resetLoop_dry_ok (mf : ℕ → Bool) :
    ∀ (l : List (String × Video)) (i : ℕ) (st : ResetSt),
      resetLoop true mf noFail l i st =
        .ok ⟨st.moved + l.length, st.errors, st.fs⟩
  | [], _, _ => rfl
  | (d, v) :: rest, i, st => by
    simp only [resetLoop, noFail, Bool.false_eq_true, if_false, if_true]
    rw [resetLoop_dry_ok mf rest (i + 1) ⟨st.moved + 1, st.errors, st.fs⟩]
    simp only [ResetSt.mk.injEq, List.length_cons, Except.ok.injEq, and_true]
    omega

/-- In live mode without environmental failures the reset loop also
counts every file as moved and reports no errors. -/
theorem resetLoop_live_counts :
    ∀ (l : List (String × Video)) (i : ℕ) (st : ResetSt),
      ∃ fs', resetLoop false noFail noFail l i st =
        .ok ⟨st.moved + l.length, st.errors, fs'⟩
  | [], _, st => ⟨st.fs, rfl⟩
  | (d, v) :: rest, i, st => by
    simp only [resetLoop, noFail, Bool.false_eq_true, if_false]
    obtain ⟨fs', h⟩ := resetLoop_live_counts rest (i + 1)
      ⟨st.moved + 1, st.errors,
        st.fs.moveDirToRoot d v { v with base := resolveBase st.fs v }⟩
    refine ⟨fs', ?_⟩
    rw [h]
    simp only [ResetSt.mk.injEq, List.length_cons, Except.ok.injEq, and_true]
    omega

/-- **C5 (amended)**: the `dry_run` flag only guards the
`makedirs`/`move` calls.  For every directory state and configuration:
whenever the live sort returns a `{moved, errors, stats}` result, the
dry run returns exactly the same result on the untouched filesystem;
the dry run never mutates the filesystem; and reset reports the same
`{moved, errors}` dry and live (absent environmental move failures).
The original claim's full equivalence fails in the live-raising
direction: live `os.makedirs` raises `FileExistsError` when a root
file bears the destination directory's name, a path the dry run skips
(see `C5_counterexample`). -/
theorem C5_dry_run_equivalence (cfg : Config) (sqrtFn : ℚ → ℚ) (fs : FS)
    (mf : ℕ → Bool) :
    (∀ res fsL,
      sort_by_duration cfg sqrtFn false noFail noFail fs = .ok (res, fsL) →
      sort_by_duration cfg sqrtFn true mf noFail fs = .ok (res, fs)) ∧
    ((sort_by_duration cfg sqrtFn true mf noFail fs).map Prod.snd =
      (sort_by_duration cfg sqrtFn true mf noFail fs).map (fun _ => fs)) ∧
    ((reset_sorting cfg true mf noFail fs).map Prod.fst =
      (reset_sorting cfg false noFail noFail fs).map Prod.fst) ∧
    ((reset_sorting cfg true mf noFail fs).map Prod.snd =
      (reset_sorting cfg true mf noFail fs).map (fun _ => fs)) := by
  refine ⟨fun res fsL h => sortGeneric_live_ok_dry cfg sqrtFn
      (fun pv => pv.durationCat) [("short", 0), ("medium", 0), ("long", 0)]
      mf fs res fsL h,
    sortGeneric_dry_fs cfg sqrtFn (fun pv => pv.durationCat)
      [("short", 0), ("medium", 0), ("long", 0)] mf fs, ?_, ?_⟩
  · unfold reset_sorting
    by_cases hl : filesToMove cfg fs = []
    · rw [if_pos hl, if_pos hl]
    · rw [if_neg hl, if_neg hl]
      rw [resetLoop_dry_ok mf (filesToMove cfg fs) 0 ⟨0, 0, fs⟩]
      obtain ⟨fs', h⟩ := resetLoop_live_counts (filesToMove cfg fs) 0 ⟨0, 0, fs⟩
      rw [h]
      rfl
  · unfold reset_sorting
    by_cases hl : filesToMove cfg fs = []
    · rw [if_pos hl]
      rfl
    · rw [if_neg hl]
      rw [resetLoop_dry_ok mf (filesToMove cfg fs) 0 ⟨0, 0, fs⟩]
      rfl

/-- Witness for C5 on a live-succeeding nonempty batch: with the
`percentile` duration method and a duration-`0` file, the dynamic
thresholds degenerate, the plain labels are used, the live sort
succeeds — and the dry run returns exactly the same result on the
untouched filesystem. -/
theorem C5_witness :
    sort_by_duration pctConfig sqrtZero true noFail noFail ⟨[exD0], []⟩ =
      .ok (⟨1, 0, [("short", 0), ("medium", 1), ("long", 0)]⟩,
        (⟨[exD0], []⟩ : FS)) :=
  (C5_dry_run_equivalence pctConfig sqrtZero ⟨[exD0], []⟩ noFail).1
    ⟨1, 0, [("short", 0), ("medium", 1), ("long", 0)]⟩
    ⟨[], [("medium", [exD0])]⟩ (by decide)

/-- **C5 counterexample**: on a directory holding the video `a.mp4` and
a regular file named exactly `horizontal`, the live orientation sort
raises `FileExistsError` at `os.makedirs` while the dry run (which
skips `makedirs`) returns its normal result: dry-run and live mode do
not raise the same exceptions over every directory state. -/
theorem C5_counterexample :
    sort_by_orientation defaultConfig sqrtZero false noFail noFail
      ⟨[exA, exDirName], []⟩ = .error .existsErr ∧
    sort_by_orientation defaultConfig sqrtZero true noFail noFail
      ⟨[exA, exDirName], []⟩ =
      .ok (⟨1, 0, [("horizontal", 1), ("vertical", 0)]⟩,
        ⟨[exA, exDirName], []⟩) := by
  constructor <;> decide

/-!  # Claim C6 — per-file move failures -/

/-- With a non-raising progress sink, the reset loop never raises: every
failed move is counted as an error and every successful one as moved,
and every file of the batch is accounted for. -/
theorem resetLoop_mf_counts (mf : ℕ → Bool) :
    ∀ (l : List (String × Video)) (i : ℕ) (st : ResetSt),
      ∃ st', resetLoop false mf noFail l i st = .ok st' ∧
        st'.moved + st'.errors = st.moved + st.errors + l.length
  | [], _, st => ⟨st, rfl, by simp⟩
  | (d, v) :: rest, i, st => by
    simp only [resetLoop, noFail, Bool.false_eq_true, if_false]
    by_cases hm : mf i
    · rw [if_pos hm]
      obtain ⟨st', h, hc⟩ := resetLoop_mf_counts mf rest (i + 1)
        ⟨st.moved, st.errors + 1, st.fs⟩
      refine ⟨st', h, ?_⟩
      simp only [List.length_cons] at hc ⊢
      omega
    · rw [if_neg hm]
      obtain ⟨st', h, hc⟩ := resetLoop_mf_counts mf rest (i + 1)
        ⟨st.moved + 1, st.errors,
          st.fs.moveDirToRoot d v { v with base := resolveBase st.fs v }⟩
      refine ⟨st', h, ?_⟩
      simp only [List.length_cons] at hc ⊢
      omega

/-- `reset_sorting` in live mode returns normally for every per-file
move-failure pattern, with every walked file counted either as moved or
as an error (shared helper for C6 and C9). -/
theorem reset_mf_ok_aux (cfg : Config) (fs : FS) (mf : ℕ → Bool) :
    ∃ r : ResetRes × FS, reset_sorting cfg false mf noFail fs = .ok r ∧
      r.1.moved + r.1.errors = (filesToMove cfg fs).length := by
  unfold reset_sorting
  by_cases hl : filesToMove cfg fs = []
  · rw [if_pos hl]
    exact ⟨(⟨0, 0⟩, fs), rfl, by rw [hl]; rfl⟩
  · rw [if_neg hl]
    obtain ⟨st', h, hc⟩ := resetLoop_mf_counts mf (filesToMove cfg fs) 0 ⟨0, 0, fs⟩
    rw [h]
    exact ⟨(⟨st'.moved, st'.errors⟩, st'.fs.prune), rfl, by simpa using hc⟩

/-- **C6 (amended)**: per-file move failures during **Reset** are caught
individually, counted in the returned error count, and do not abort the
batch: for every failure pattern, `reset_sorting` still returns a
`{moved, errors}` result with `moved + errors` equal to the number of
files walked.  (The original claim extends this to the sort operations,
which have no per-file `try/except`: a raising move there propagates and
aborts the batch, see `C6_counterexample`.) -/
theorem C6_reset_failures_counted (cfg : Config) (fs : FS) (mf : ℕ → Bool) :
    ∃ r : ResetRes × FS, reset_sorting cfg false mf noFail fs = .ok r ∧
      r.1.moved + r.1.errors = (filesToMove cfg fs).length :=
  reset_mf_ok_aux cfg fs mf

/-- **C6 counterexample**: in `sort_by_quality` a failing move is *not*
caught: on a two-file directory whose first move raises, the whole call
raises (returns no `{moved, errors, stats}` result) and the second file
is never processed. -/
theorem C6_counterexample :
    sort_by_quality defaultConfig sqrtZero false failAt0 noFail
      ⟨[exA, exB], []⟩ = .error .moveErr := by
  decide

/-!  # Claim C9 — a raising progress sink -/

/-- With a non-raising sink the analysis loop always completes. -/
theorem analyzeLoop_noFail_ok (cfg : Config) :
    ∀ (l : List Video) (i : ℕ),
      analyzeLoop cfg noFail l i =
        .ok ((l.filter (fun v => v.probeOk)).map (mkAVid cfg),
             (l.filter (fun v => !v.probeOk)).map Video.render)
  | [], _ => rfl
  | v :: rest, i => by
    simp only [analyzeLoop, noFail, Bool.false_eq_true, if_false]
    rw [analyzeLoop_noFail_ok cfg rest (i + 1)]
    by_cases hp : v.probeOk
    · simp [hp]
    · simp only [Bool.not_eq_true] at hp
      simp [hp]

/-- **C9 (amended)**: the caller-supplied progress sink is invoked
*unguarded*: with a sink that never raises, the analysis pass and the
reset batch run to completion and return their normal results — but a
raising sink aborts the batch (see `C9_counterexample`); the
"never raise" contract is on the sink, not enforced by the engine. -/
theorem C9_sink_unguarded (cfg : Config) (fs : FS) (mf : ℕ → Bool) :
    analyzeFS cfg noFail fs =
      .ok (((listRootVideos cfg fs).filter (fun v => v.probeOk)).map (mkAVid cfg),
           ((listRootVideos cfg fs).filter (fun v => !v.probeOk)).map Video.render) ∧
    (∃ r, reset_sorting cfg false mf noFail fs = .ok r) := by
  refine ⟨analyzeLoop_noFail_ok cfg (listRootVideos cfg fs) 0, ?_⟩
  obtain ⟨r, h, _⟩ := reset_mf_ok_aux cfg fs mf
  exact ⟨r, h⟩

/-- **C9 counterexample**: a sink that raises on its first invocation
aborts the analysis pass: `analyze_videos` propagates the exception
instead of returning its normal result. -/
theorem C9_counterexample :
    analyzeFS defaultConfig failAt0 ⟨[exA], []⟩ = .error .sinkErr := by
  decide

/-!  # Claim C1 — collision-suffix policy -/

/-- **C1 (amended)**: the incrementing-suffix collision policy holds for
**reset_sorting**: moving two distinct files that carry the same
filename (here from two different subdirectories) back to the root
loses neither — the first keeps its name, the second receives the
numeric suffix `base_1.ext` — and both emptied directories are pruned.
(The sort operations perform no collision check at all and overwrite an
existing destination file, see `C1_counterexample`.)  The hypotheses
about the directory names merely rule out the filesystem-impossible
states in which a file and a directory share a name. -/
theorem C1_reset_collision_suffix (cfg : Config) (d1 d2 : String)
    (v1 v2 : Video) (hd : d1 ≠ d2)
    (hb : v2.base = v1.base) (he : v2.ext = v1.ext)
    (hv1 : isVideoFile cfg v1 = true) (hv2 : isVideoFile cfg v2 = true)
    (hr1 : v1.render ≠ d1) (hr2 : v1.render ≠ d2)
    (hs1 : v2.base ++ "_" ++ toString 1 ++ v2.ext ≠ d1)
    (hs2 : v2.base ++ "_" ++ toString 1 ++ v2.ext ≠ d2) :
    reset_sorting cfg false noFail noFail ⟨[], [(d1, [v1]), (d2, [v2])]⟩ =
      .ok (⟨2, 0⟩,
        ⟨[v1, { v2 with base := v2.base ++ "_" ++ toString 1 }], []⟩) := by
  have hrender : v2.render = v1.render := by
    simp [Video.render, hb, he]
  have hftm : filesToMove cfg ⟨[], [(d1, [v1]), (d2, [v2])]⟩ =
      [(d1, v1), (d2, v2)] := by
    simp [filesToMove, FS.subFiles, hv1, hv2]
  have hex1 : (⟨[], [(d1, [v1]), (d2, [v2])]⟩ : FS).existsRoot v1.render
      = false := by
    simp [FS.existsRoot, Ne.symm hr1, Ne.symm hr2]
  have hres1 : resolveBase ⟨[], [(d1, [v1]), (d2, [v2])]⟩ v1 = v1.base := by
    simp [resolveBase, hex1]
  have hmv1 : (⟨[], [(d1, [v1]), (d2, [v2])]⟩ : FS).moveDirToRoot d1 v1
      { v1 with base := v1.base } = ⟨[v1], [(d1, []), (d2, [v2])]⟩ := by
    simp [FS.moveDirToRoot, Ne.symm hd]
  have hsuffix_ne : v1.render ≠ v2.base ++ "_" ++ toString 1 ++ v2.ext := by
    intro hcon
    have hlen := congrArg String.length hcon
    rw [hb, he] at hlen
    simp only [Video.render, String.length_append] at hlen
    have h1 : ("_" : String).length = 1 := by decide
    have h2 : (toString 1 : String).length = 1 := by decide
    omega
  have hex2 : (⟨[v1], [(d1, []), (d2, [v2])]⟩ : FS).existsRoot v2.render
      = true := by
    simp [FS.existsRoot, hrender]
  have hexs : (⟨[v1], [(d1, []), (d2, [v2])]⟩ : FS).existsRoot
      (v2.base ++ "_" ++ toString 1 ++ v2.ext) = false := by
    simp [FS.existsRoot, hsuffix_ne, Ne.symm hs1, Ne.symm hs2]
  have hres2 : resolveBase ⟨[v1], [(d1, []), (d2, [v2])]⟩ v2 =
      v2.base ++ "_" ++ toString 1 := by
    have hrange : List.range (([v1] : List Video).length +
        ([(d1, ([] : List Video)), (d2, [v2])] : List (String × List Video)).length + 1) =
        [0, 1, 2, 3] := rfl
    simp only [resolveBase, hex2, if_true, hrange]
    rw [List.find?_cons]
    simp [hexs]
  have hmv2 : (⟨[v1], [(d1, []), (d2, [v2])]⟩ : FS).moveDirToRoot d2 v2
      { v2 with base := v2.base ++ "_" ++ toString 1 } =
      ⟨[v1, { v2 with base := v2.base ++ "_" ++ toString 1 }],
        [(d1, []), (d2, [])]⟩ := by
    simp [FS.moveDirToRoot, hd]
  simp only [reset_sorting, hftm]
  rw [if_neg (by simp)]
  simp only [resetLoop, noFail, Bool.false_eq_true, if_false]
  rw [hres1, hmv1, hres2, hmv2]
  simp [FS.prune]

/-- Witness for C1 on two concrete same-named files in directories
`x/` and `y/`. -/
theorem C1_witness :
    reset_sorting defaultConfig false noFail noFail
        ⟨[], [("x", [exA]), ("y", [exA'])]⟩ =
      .ok (⟨2, 0⟩,
        ⟨[exA, { exA' with base := exA'.base ++ "_" ++ toString 1 }], []⟩) :=
  C1_reset_collision_suffix defaultConfig "x" "y" exA exA' (by decide)
    (by decide) (by decide) (by decide) (by decide) (by decide) (by decide)
    (by decide) (by decide)

/-- **C1 counterexample**: the sort operations do *not* implement the
collision policy.  Starting from a root file `a.mp4` (horizontal) and a
pre-existing, different file `horizontal/a.mp4`, live
`sort_by_orientation` reports success and silently overwrites the
destination: two distinct files before, a single file anywhere in the
tree afterwards, no numeric suffix inserted. -/
theorem C1_counterexample :
    sort_by_orientation defaultConfig sqrtZero false noFail noFail
        ⟨[exA], [("horizontal", [exA'])]⟩ =
      .ok (⟨1, 0, [("horizontal", 1), ("vertical", 0)]⟩,
        ⟨[], [("horizontal", [exA])]⟩) ∧
    exA ≠ exA' ∧
    (⟨[exA], [("horizontal", [exA'])]⟩ : FS).rootFiles.length +
      (⟨[exA], [("horizontal", [exA'])]⟩ : FS).subFiles.length = 2 ∧
    (⟨[], [("horizontal", [exA])]⟩ : FS).rootFiles.length +
      (⟨[], [("horizontal", [exA])]⟩ : FS).subFiles.length = 1 := by
  decide

/-!  # Claim C2 — sort-then-reset round trip

The proof characterizes the live move loop of a sort (files leave the
root listing and accumulate in category subdirectories) and the reset
loop (files return to the root unrenamed when no collision can occur),
then composes the two. -/

theorem dirPairs_map_snd (fs : FS) :
    (dirPairs fs).map Prod.snd = fs.subFiles := by
  unfold dirPairs FS.subFiles
  induction fs.subdirs with
  | nil => rfl
  | cons p ds ih =>
    simp only [List.flatMap_cons, List.map_append, List.map_map, ih]
    congr 1
    simp

theorem dirPairs_eq_nil_iff (fs : FS) :
    dirPairs fs = [] ↔ ∀ p ∈ fs.subdirs, p.2 = [] := by
  unfold dirPairs
  induction fs.subdirs with
  | nil => simp
  | cons p ds ih =>
    simp only [List.flatMap_cons, List.append_eq_nil, List.map_eq_nil_iff,
      List.mem_cons, ih]
    constructor
    · rintro ⟨h1, h2⟩ q (rfl | hq)
      · exact h1
      · exact h2 q hq
    · intro h
      exact ⟨h p (Or.inl rfl), fun q hq => h q (Or.inr hq)⟩

theorem mem_dirPairs_fst {fs : FS} {pr : String × Video}
    (h : pr ∈ dirPairs fs) : pr.1 ∈ fs.subdirs.map Prod.fst := by
  unfold dirPairs at h
  rw [List.mem_flatMap] at h
  obtain ⟨p, hp, hm⟩ := h
  rw [List.mem_map] at hm
  obtain ⟨v, _, rfl⟩ := hm
  exact List.mem_map.mpr ⟨p, hp, rfl⟩

/-- Updating the contents of the directories named `d` does not change
the directory names. -/
theorem update_names (d : String) (g : String × List Video → List Video)
    (ds : List (String × List Video)) :
    (ds.map fun p => if p.1 = d then (p.1, g p) else p).map Prod.fst =
      ds.map Prod.fst := by
  rw [List.map_map]
  apply List.map_congr_left
  intro p _
  by_cases h : p.1 = d <;> simp [h]

/-- Updating a directory name that does not occur is the identity. -/
theorem update_id (d : String) (g : String × List Video → List Video) :
    ∀ ds : List (String × List Video), d ∉ ds.map Prod.fst →
      (ds.map fun p => if p.1 = d then (p.1, g p) else p) = ds
  | [], _ => rfl
  | p :: ds, h => by
    simp only [List.map_cons, List.mem_cons, not_or] at h ⊢
    rw [if_neg (fun hc => h.1 hc.symm), update_id d g ds h.2]

/-- Removing the head occurrence from the walk list: erasing `v` from
directory `d` drops exactly the head pair of the walk. -/
theorem dirPairs_erase_head (d : String) (v : Video) :
    ∀ (ds : List (String × List Video)) (rest : List (String × Video)),
      (ds.map Prod.fst).Nodup →
      ds.flatMap (fun p => p.2.map (fun w => (p.1, w))) = (d, v) :: rest →
      (ds.map fun p => if p.1 = d then (p.1, p.2.erase v) else p).flatMap
          (fun p => p.2.map (fun w => (p.1, w))) = rest
  | [], rest, _, h => by simp at h
  | (e, files) :: ds, rest, hnd, h => by
    rw [List.map_cons] at hnd
    have hnd' := List.nodup_cons.mp hnd
    cases files with
    | nil =>
      simp only [List.flatMap_cons, List.map_nil, List.nil_append] at h
      have hd_mem : d ∈ ds.map Prod.fst := by
        have hmem : (d, v) ∈ ds.flatMap (fun p => p.2.map (fun w => (p.1, w))) := by
          rw [h]; exact List.mem_cons_self _ _
        rw [List.mem_flatMap] at hmem
        obtain ⟨p, hp, hm⟩ := hmem
        rw [List.mem_map] at hm
        obtain ⟨w, _, hw⟩ := hm
        cases hw
        exact List.mem_map.mpr ⟨p, hp, rfl⟩
      by_cases hed : e = d
      · exact absurd hd_mem (hed ▸ hnd'.1)
      · simp only [List.map_cons, if_neg hed, List.flatMap_cons, List.map_nil,
          List.nil_append]
        exact dirPairs_erase_head d v ds rest hnd'.2 h
    | cons w ws =>
      simp only [List.flatMap_cons, List.map_cons, List.cons_append] at h
      rw [List.cons_eq_cons] at h
      obtain ⟨h1, h2⟩ := h
      rw [Prod.mk.injEq] at h1
      obtain ⟨he, hw⟩ := h1
      subst he
      subst hw
      simp only [List.map_cons, if_pos rfl, List.erase_cons_head,
        List.flatMap_cons]
      rw [update_id e (fun p => p.2.erase w) ds hnd'.1]
      exact h2

/-- `moveDirToRoot` at the walk head, at the `FS` level. -/
theorem dirPairs_moveDirToRoot {fs : FS} {d : String} {v : Video}
    {rest : List (String × Video)} (v' : Video)
    (hnd : (fs.subdirs.map Prod.fst).Nodup)
    (h : dirPairs fs = (d, v) :: rest) :
    dirPairs (fs.moveDirToRoot d v v') = rest :=
  dirPairs_erase_head d v fs.subdirs rest hnd h

theorem moveDirToRoot_names (fs : FS) (d : String) (v v' : Video) :
    (fs.moveDirToRoot d v v').subdirs.map Prod.fst =
      fs.subdirs.map Prod.fst :=
  update_names d (fun p => p.2.erase v) fs.subdirs

/-- The reset move loop on a state whose walk list is collision-free:
every file returns to the root under its original name, in walk order;
no errors occur, the directory names survive, and all directories are
emptied. -/
theorem resetLoop_clean_spec :
    ∀ (l : List (String × Video)) (i : ℕ) (st : ResetSt),
      dirPairs st.fs = l →
      (st.fs.rootFiles.map Video.render ++
        l.map (fun pr => pr.2.render)).Nodup →
      (∀ pr ∈ l, ∀ d' ∈ st.fs.subdirs.map Prod.fst, pr.2.render ≠ d') →
      (st.fs.subdirs.map Prod.fst).Nodup →
      ∃ fs' : FS,
        resetLoop false noFail noFail l i st =
          .ok ⟨st.moved + l.length, st.errors, fs'⟩ ∧
        fs'.rootFiles = st.fs.rootFiles ++ l.map Prod.snd ∧
        fs'.subdirs.map Prod.fst = st.fs.subdirs.map Prod.fst ∧
        dirPairs fs' = []
  | [], i, st => fun hdp _ _ _ =>
    ⟨st.fs, rfl, by simp, rfl, hdp⟩
  | (d, v) :: l, i, st => fun hdp hfresh hdir hnd => by
    have hvroot : ∀ w ∈ st.fs.rootFiles, ¬ (w.render = v.render) := by
      intro w hw hc
      have hdisj := List.disjoint_of_nodup_append hfresh
      exact hdisj (List.mem_map.mpr ⟨w, hw, rfl⟩)
        (by rw [hc]; exact List.mem_cons_self _ _)
    have hvdir : ∀ p ∈ st.fs.subdirs, ¬ (p.1 = v.render) := by
      intro p hp hc
      exact hdir (d, v) (List.mem_cons_self _ _) p.1
        (List.mem_map.mpr ⟨p, hp, rfl⟩) hc.symm
    have hexists : st.fs.existsRoot v.render = false := by
      simp only [FS.existsRoot, decide_eq_false_iff_not, not_or,
        List.any_eq_true, not_exists, not_and]
      constructor
      · intro w hw
        simpa using hvroot w hw
      · intro p hp
        simpa using hvdir p hp
    have hrb : resolveBase st.fs v = v.base := by
      simp [resolveBase, hexists]
    simp only [resetLoop, noFail, Bool.false_eq_true, if_false, hrb]
    have heta : ({ v with base := v.base } : Video) = v := rfl
    rw [heta]
    have hnames1 := moveDirToRoot_names st.fs d v v
    have hdp1 : dirPairs (st.fs.moveDirToRoot d v v) = l :=
      dirPairs_moveDirToRoot v hnd hdp
    have hroot1 : (st.fs.moveDirToRoot d v v).rootFiles =
        st.fs.rootFiles ++ [v] := rfl
    have hfresh1 : ((st.fs.moveDirToRoot d v v).rootFiles.map Video.render ++
        l.map (fun pr => pr.2.render)).Nodup := by
      rw [hroot1]
      simpa [List.map_append] using hfresh
    have hdir1 : ∀ pr ∈ l, ∀ d' ∈
        (st.fs.moveDirToRoot d v v).subdirs.map Prod.fst,
        pr.2.render ≠ d' := by
      rw [hnames1]
      intro pr hpr
      exact hdir pr (List.mem_cons_of_mem _ hpr)
    have hnd1 : ((st.fs.moveDirToRoot d v v).subdirs.map Prod.fst).Nodup := by
      rw [hnames1]; exact hnd
    obtain ⟨fs', hloop, hroot, hnames, hdpf⟩ :=
      resetLoop_clean_spec l (i + 1)
        ⟨st.moved + 1, st.errors, st.fs.moveDirToRoot d v v⟩
        hdp1 hfresh1 hdir1 hnd1
    refine ⟨fs', ?_, ?_, ?_, hdpf⟩
    · rw [hloop]
      congr 2
      simp only [List.length_cons]
      omega
    · rw [hroot, hroot1]
      simp
    · rw [hnames, hnames1]

/-- When no root file bears the destination name, `os.makedirs`
succeeds and produces `createDir`. -/
theorem ensureDir_of_fresh {fs : FS} {d : String}
    (h : ∀ v ∈ fs.rootFiles, v.render ≠ d) :
    fs.ensureDir d = .ok (fs.createDir d) := by
  unfold FS.ensureDir FS.createDir
  by_cases h1 : fs.subdirs.any (fun p => p.1 = d)
  · rw [if_pos h1, if_pos h1]
  · rw [if_neg h1, if_neg h1]
    have h2 : fs.rootFiles.any (fun v => v.render = d) = false := by
      rw [List.any_eq_false]
      intro v hv
      simpa using h v hv
    simp only [h2, Bool.false_eq_true, if_false]

theorem createDir_root (fs : FS) (d : String) :
    (fs.createDir d).rootFiles = fs.rootFiles := by
  unfold FS.createDir
  by_cases h : fs.subdirs.any (fun p => p.1 = d) <;> simp [h]

theorem createDir_subFiles (fs : FS) (d : String) :
    (fs.createDir d).subFiles = fs.subFiles := by
  unfold FS.createDir FS.subFiles
  by_cases h : fs.subdirs.any (fun p => p.1 = d) <;> simp [h]

theorem createDir_names (fs : FS) (d : String) :
    (fs.createDir d).subdirs.map Prod.fst =
      (if fs.subdirs.any (fun p => p.1 = d) then fs.subdirs.map Prod.fst
        else fs.subdirs.map Prod.fst ++ [d]) := by
  unfold FS.createDir
  by_cases h : fs.subdirs.any (fun p => p.1 = d) <;> simp [h]

theorem createDir_hasDir (fs : FS) (d : String) :
    (fs.createDir d).subdirs.any (fun p => p.1 = d) = true := by
  unfold FS.createDir
  by_cases h : fs.subdirs.any (fun p => p.1 = d)
  · rw [if_pos h]; exact h
  · rw [if_neg h]; simp

theorem createDir_names_nodup (fs : FS) (d : String)
    (h : (fs.subdirs.map Prod.fst).Nodup) :
    ((fs.createDir d).subdirs.map Prod.fst).Nodup := by
  rw [createDir_names]
  by_cases hh : fs.subdirs.any (fun p => p.1 = d)
  · rw [if_pos hh]; exact h
  · rw [if_neg hh]
    refine List.Nodup.append h (List.nodup_singleton d) ?_
    intro a ha hd
    rw [List.mem_singleton] at hd
    subst hd
    rw [Bool.not_eq_true, List.any_eq_false] at hh
    rw [List.mem_map] at ha
    obtain ⟨p, hp, hfst⟩ := ha
    exact absurd (by simpa using hfst) (by simpa using hh p hp)

theorem createDir_mem {fs : FS} {d : String} {p : String × List Video}
    (h : p ∈ (fs.createDir d).subdirs) :
    p ∈ fs.subdirs ∨ p = (d, ([] : List Video)) := by
  unfold FS.createDir at h
  by_cases hh : fs.subdirs.any (fun q => q.1 = d)
  · rw [if_pos hh] at h; exact Or.inl h
  · rw [if_neg hh] at h
    simp only [List.mem_append, List.mem_singleton] at h
    exact h

/-- Placing a fresh-named file into the (unique) directory named `d`
adds exactly that file to the flattened contents. -/
theorem update_flat_place (d : String) (v : Video) :
    ∀ ds : List (String × List Video),
      (ds.map Prod.fst).Nodup →
      (∀ w ∈ ds.flatMap (fun p => p.2), w.render ≠ v.render) →
      ds.any (fun p => p.1 = d) = true →
      (((ds.map fun p => if p.1 = d then
          (p.1, p.2.filter (fun w => w.render ≠ v.render) ++ [v]) else p).flatMap
          (fun p => p.2) : List Video) : Multiset Video) =
        ((ds.flatMap (fun p => p.2) : List Video) : Multiset Video) + {v}
  | [], _, _, hany => by simp at hany
  | (e, files) :: ds, hnd, hfresh, hany => by
    rw [List.map_cons] at hnd
    have hnd' := List.nodup_cons.mp hnd
    by_cases hed : e = d
    · subst hed
      have hfilter : files.filter (fun w => w.render ≠ v.render) = files := by
        rw [List.filter_eq_self]
        intro w hw
        simpa using hfresh w
          (List.mem_flatMap.mpr ⟨(e, files), List.mem_cons_self _ _, hw⟩)
      have hupd : (((e, files) :: ds).map fun p => if p.1 = e then
          (p.1, p.2.filter (fun w => w.render ≠ v.render) ++ [v]) else p) =
          (e, files ++ [v]) :: ds := by
        rw [List.map_cons, if_pos rfl, update_id e _ ds hnd'.1]
        rw [show ((e, files).1, (e, files).2.filter
          (fun w => w.render ≠ v.render) ++ [v]) =
          (e, files.filter (fun w => w.render ≠ v.render) ++ [v]) from rfl]
        rw [hfilter]
      rw [hupd]
      simp only [List.flatMap_cons]
      rw [List.append_assoc]
      simp only [← Multiset.coe_add, ← Multiset.coe_singleton]
      abel
    · have hany' : ds.any (fun p => p.1 = d) = true := by
        simpa [hed] using hany
      have hfresh' : ∀ w ∈ ds.flatMap (fun p => p.2), w.render ≠ v.render :=
        fun w hw => hfresh w (by
          rw [List.flatMap_cons, List.mem_append]
          exact Or.inr hw)
      have ih := update_flat_place d v ds hnd'.2 hfresh' hany'
      simp only [List.map_cons, if_neg hed, List.flatMap_cons]
      rw [← Multiset.coe_add, ← Multiset.coe_add, ih]
      abel

/-- The compound live move of the sort loop (`makedirs` + `move`):
characterization of the resulting filesystem. -/
theorem moveStep_spec (fs : FS) (d : String) (v : Video)
    (hnd : (fs.subdirs.map Prod.fst).Nodup)
    (hfresh : ∀ w ∈ fs.subFiles, w.render ≠ v.render)
    (hne : ∀ p ∈ fs.subdirs, p.2 ≠ []) :
    ((fs.createDir d).moveRootToDir d v).rootFiles = fs.rootFiles.erase v ∧
    ((((fs.createDir d).moveRootToDir d v).subFiles : List Video) :
        Multiset Video) = (fs.subFiles : Multiset Video) + {v} ∧
    (((fs.createDir d).moveRootToDir d v).subdirs.map Prod.fst).Nodup ∧
    (∀ d' ∈ ((fs.createDir d).moveRootToDir d v).subdirs.map Prod.fst,
      d' ∈ fs.subdirs.map Prod.fst ∨ d' = d) ∧
    (∀ p ∈ ((fs.createDir d).moveRootToDir d v).subdirs, p.2 ≠ []) := by
  have hroot : ((fs.createDir d).moveRootToDir d v).rootFiles =
      fs.rootFiles.erase v := by
    show ((fs.createDir d).rootFiles).erase v = fs.rootFiles.erase v
    rw [createDir_root]
  have hndE : (((fs.createDir d).subdirs.map Prod.fst)).Nodup :=
    createDir_names_nodup fs d hnd
  have hfreshE : ∀ w ∈ (fs.createDir d).subFiles, w.render ≠ v.render := by
    rw [createDir_subFiles]; exact hfresh
  have hflat : ((((fs.createDir d).moveRootToDir d v).subFiles : List Video) :
      Multiset Video) = (fs.subFiles : Multiset Video) + {v} := by
    show ((((fs.createDir d).subdirs.map fun p => if p.1 = d then
        (p.1, p.2.filter (fun w => w.render ≠ v.render) ++ [v]) else p).flatMap
        (fun p => p.2) : List Video) : Multiset Video) = _
    rw [update_flat_place d v (fs.createDir d).subdirs hndE hfreshE
      (createDir_hasDir fs d)]
    rw [show (fs.createDir d).subdirs.flatMap (fun p => p.2) = fs.subFiles from
      createDir_subFiles fs d]
  have hnames : ((fs.createDir d).moveRootToDir d v).subdirs.map Prod.fst =
      (fs.createDir d).subdirs.map Prod.fst :=
    update_names d _ (fs.createDir d).subdirs
  refine ⟨hroot, hflat, ?_, ?_, ?_⟩
  · rw [hnames]; exact hndE
  · intro d' hd'
    rw [hnames, createDir_names] at hd'
    by_cases hh : fs.subdirs.any (fun p => p.1 = d)
    · rw [if_pos hh] at hd'; exact Or.inl hd'
    · rw [if_neg hh, List.mem_append, List.mem_singleton] at hd'
      exact hd'.imp id id
  · intro p hp
    unfold FS.moveRootToDir at hp
    simp only [List.mem_map] at hp
    obtain ⟨q, hq, rfl⟩ := hp
    by_cases hqd : q.1 = d
    · rw [if_pos hqd]
      simp
    · rw [if_neg hqd]
      rcases createDir_mem hq with hmem | rfl
      · exact hne q hmem
      · exact absurd rfl hqd

/-- `stats[cat] += 1` succeeds exactly on the initialized keys and
preserves the key set. -/
theorem bumpKey_ok {stats : List (String × ℕ)} {k : String}
    (h : stats.any (fun p => p.1 = k) = true) :
    ∃ stats', bumpKey stats k = .ok stats' ∧
      ∀ k', stats'.any (fun p => p.1 = k') = stats.any (fun p => p.1 = k') := by
  refine ⟨stats.map (fun p => if p.1 = k then (p.1, p.2 + 1) else p), ?_, ?_⟩
  · unfold bumpKey
    rw [if_pos h]
  · intro k'
    rw [List.any_map]
    congr 1
    funext p
    by_cases hp : p.1 = k <;> simp [hp]

/-- The live sort move loop on a collision-free batch completes, moving
every batch file out of the root listing into category directories and
preserving the total file population. -/
theorem sortLoop_clean_spec (cf : PVid → String) :
    ∀ (l : List PVid) (i : ℕ) (st : SortSt),
      (∀ pv ∈ l, st.stats.any (fun p => p.1 = cf pv) = true) →
      (∀ pv ∈ l, pv.video ∈ st.fs.rootFiles) →
      (∀ pv ∈ l, ∀ w ∈ st.fs.rootFiles, w.render ≠ cf pv) →
      ((st.fs.rootFiles.map Video.render).Nodup) →
      ((l.map (fun pv => pv.video.render)).Nodup) →
      (∀ pv ∈ l, ∀ w ∈ st.fs.subFiles, w.render ≠ pv.video.render) →
      ((st.fs.subdirs.map Prod.fst).Nodup) →
      (∀ p ∈ st.fs.subdirs, p.2 ≠ []) →
      ∃ st' : SortSt,
        sortLoop false noFail noFail cf l i st = .ok st' ∧
        ((st'.fs.rootFiles : Multiset Video) +
          ((l.map (fun pv => pv.video) : List Video) : Multiset Video) =
          (st.fs.rootFiles : Multiset Video)) ∧
        ((st'.fs.subFiles : Multiset Video) =
          (st.fs.subFiles : Multiset Video) +
          ((l.map (fun pv => pv.video) : List Video) : Multiset Video)) ∧
        ((st'.fs.subdirs.map Prod.fst).Nodup) ∧
        (∀ d ∈ st'.fs.subdirs.map Prod.fst,
          d ∈ st.fs.subdirs.map Prod.fst ∨ ∃ pv ∈ l, d = cf pv) ∧
        (∀ p ∈ st'.fs.subdirs, p.2 ≠ []) ∧
        ((st'.fs.rootFiles.map Video.render).Nodup)
  | [], i, st => fun _ _ _ hrn _ _ hnd hne =>
    ⟨st, rfl, by simp, by simp, hnd, fun d hd => Or.inl hd, hne, hrn⟩
  | pv :: rest, i, st => fun hstats hmem hrfresh hrn hln hfresh hnd hne => by
    simp only [sortLoop, noFail, Bool.false_eq_true, if_false]
    have hok : st.fs.ensureDir (cf pv) = .ok (st.fs.createDir (cf pv)) :=
      ensureDir_of_fresh (fun w hw => hrfresh pv (List.mem_cons_self _ _) w hw)
    simp only [hok]
    obtain ⟨stats', hbump, hkeys⟩ := bumpKey_ok (hstats pv (List.mem_cons_self _ _))
    rw [hbump]
    obtain ⟨msroot, msflat, msnd, msnames, msne⟩ :=
      moveStep_spec st.fs (cf pv) pv.video hnd
        (fun w hw => hfresh pv (List.mem_cons_self _ _) w hw) hne
    rw [List.map_cons] at hln
    have hln' := List.nodup_cons.mp hln
    have hstats1 : ∀ pv' ∈ rest, stats'.any (fun p => p.1 = cf pv') = true :=
      fun pv' hpv' => by
        rw [hkeys]
        exact hstats pv' (List.mem_cons_of_mem _ hpv')
    have hmem1 : ∀ pv' ∈ rest, pv'.video ∈
        ((st.fs.createDir (cf pv)).moveRootToDir (cf pv) pv.video).rootFiles := by
      intro pv' hpv'
      rw [msroot]
      have hneq : pv'.video ≠ pv.video := by
        intro hc
        exact hln'.1 (List.mem_map.mpr ⟨pv', hpv', by rw [hc]⟩)
      exact (List.mem_erase_of_ne hneq).mpr
        (hmem pv' (List.mem_cons_of_mem _ hpv'))
    have hrn1 : ((((st.fs.createDir (cf pv)).moveRootToDir (cf pv)
        pv.video).rootFiles).map Video.render).Nodup := by
      rw [msroot]
      exact hrn.sublist (List.Sublist.map _ (List.erase_sublist pv.video _))
    have hrfresh1 : ∀ pv' ∈ rest, ∀ w ∈
        ((st.fs.createDir (cf pv)).moveRootToDir (cf pv) pv.video).rootFiles,
        w.render ≠ cf pv' := by
      intro pv' hpv' w hw
      rw [msroot] at hw
      exact hrfresh pv' (List.mem_cons_of_mem _ hpv') w
        (List.mem_of_mem_erase hw)
    have hfresh1 : ∀ pv' ∈ rest,
        ∀ w ∈ ((st.fs.createDir (cf pv)).moveRootToDir (cf pv) pv.video).subFiles,
        w.render ≠ pv'.video.render := by
      intro pv' hpv' w hw
      have hwm : w ∈ (st.fs.subFiles : Multiset Video) + {pv.video} := by
        rw [← msflat]
        exact hw
      rw [Multiset.mem_add, Multiset.mem_singleton] at hwm
      rcases hwm with hwm | rfl
      · exact hfresh pv' (List.mem_cons_of_mem _ hpv') w hwm
      · intro hc
        exact hln'.1 (List.mem_map.mpr ⟨pv', hpv', hc.symm⟩)
    obtain ⟨st', hloop, hroot, hsub, hnd', hnames', hne', hrn'⟩ :=
      sortLoop_clean_spec cf rest (i + 1)
        ⟨st.moved + 1, stats',
          (st.fs.createDir (cf pv)).moveRootToDir (cf pv) pv.video⟩
        hstats1 hmem1 hrfresh1 hrn1 hln'.2 hfresh1 msnd msne
    refine ⟨st', hloop, ?_, ?_, hnd', ?_, hne', hrn'⟩
    · rw [msroot] at hroot
      have hperm : (st.fs.rootFiles : Multiset Video) =
          {pv.video} +
            ((st.fs.rootFiles.erase pv.video : List Video) : Multiset Video) := by
        have hp := List.perm_cons_erase (hmem pv (List.mem_cons_self _ _))
        rw [Multiset.coe_eq_coe.mpr hp]
        simp [Multiset.singleton_add]
      rw [List.map_cons, ← Multiset.cons_coe, ← Multiset.singleton_add, hperm]
      rw [← hroot]
      abel
    · rw [msflat] at hsub
      rw [hsub, List.map_cons, ← Multiset.cons_coe, ← Multiset.singleton_add]
      abel
    · intro d hd
      rcases hnames' d hd with hd1 | ⟨pv', hpv', rfl⟩
      · rcases msnames d hd1 with hd2 | rfl
        · exact Or.inl hd2
        · exact Or.inr ⟨pv, List.mem_cons_self _ _, rfl⟩
      · exact Or.inr ⟨pv', List.mem_cons_of_mem _ hpv', rfl⟩

/-- When every walked file has a recognized extension, the reset
collection pass walks all of them. -/
theorem filesToMove_eq_dirPairs_list (cfg : Config) :
    ∀ ds : List (String × List Video),
      (∀ pr ∈ ds.flatMap (fun p => p.2.map (fun v => (p.1, v))),
        isVideoFile cfg pr.2 = true) →
      ds.flatMap (fun p =>
        (p.2.filter (isVideoFile cfg)).map (fun v => (p.1, v))) =
        ds.flatMap (fun p => p.2.map (fun v => (p.1, v)))
  | [], _ => rfl
  | p :: ds, h => by
    simp only [List.flatMap_cons]
    have hhead : p.2.filter (isVideoFile cfg) = p.2 := by
      rw [List.filter_eq_self]
      intro v hv
      exact h (p.1, v) (by
        simp only [List.flatMap_cons, List.mem_append]
        exact Or.inl (List.mem_map.mpr ⟨v, hv, rfl⟩))
    rw [hhead, filesToMove_eq_dirPairs_list cfg ds (fun pr hpr => h pr (by
      simp only [List.flatMap_cons, List.mem_append]
      exact Or.inr hpr))]

theorem filesToMove_eq_dirPairs (cfg : Config) (fs : FS)
    (h : ∀ pr ∈ dirPairs fs, isVideoFile cfg pr.2 = true) :
    filesToMove cfg fs = dirPairs fs :=
  filesToMove_eq_dirPairs_list cfg fs.subdirs h

/-- Pruning removes all directories when every directory is empty. -/
theorem prune_of_all_empty {fs : FS} (h : ∀ p ∈ fs.subdirs, p.2 = []) :
    fs.prune.subdirs = [] := by
  unfold FS.prune
  rw [List.filter_eq_nil_iff]
  intro p hp
  simp [h p hp]

/-- With no raising sink, `preview_videos` succeeds and categorizes
exactly the analyzable files, in sorted listing order, assigning every
record the orientation `horizontal` or `vertical`. -/
theorem previewFS_ok (cfg : Config) (sqrtFn : ℚ → ℚ) (fs : FS) :
    ∃ (pvids : List PVid) (errs : List String),
      previewFS cfg sqrtFn noFail fs = .ok (pvids, errs) ∧
      pvids.map (fun pv => pv.video) =
        (listRootVideos cfg fs).filter (fun v => v.probeOk) ∧
      (∀ pv ∈ pvids,
        pv.orientation = "horizontal" ∨ pv.orientation = "vertical") := by
  have han := analyzeLoop_noFail_ok cfg (listRootVideos cfg fs) 0
  simp only [previewFS, analyzeFS, han]
  by_cases hav : ((listRootVideos cfg fs).filter
      (fun v => v.probeOk)).map (mkAVid cfg) = []
  · rw [if_pos hav]
    refine ⟨[], _, rfl, ?_, by simp⟩
    have hf : (listRootVideos cfg fs).filter (fun v => v.probeOk) = [] :=
      List.map_eq_nil_iff.mp hav
    simp [hf]
  · rw [if_neg hav]
    refine ⟨_, _, rfl, ?_, ?_⟩
    · rw [List.map_map, List.map_map]
      conv_rhs => rw [← List.map_id
        ((listRootVideos cfg fs).filter (fun v => v.probeOk))]
      apply List.map_congr_left
      intro v _
      rfl
    · intro pv hpv
      rw [List.mem_map] at hpv
      obtain ⟨a, _, rfl⟩ := hpv
      by_cases hwh : a.video.height ≤ a.video.width
      · exact Or.inl (by simp [hwh])
      · exact Or.inr (by simp [hwh])

/-- **C2 (amended)**: sorting then resetting restores the original flat
directory for the orientation sort, whose per-file categories
(`horizontal`/`vertical`) are exactly its stats keys.  Starting from a
flat directory of distinctly named files, none named
`horizontal`/`vertical`, live `sort_by_orientation` followed by live
`reset_sorting` both succeed and the final state is flat again with
exactly the original file population.  The round trip does not hold for
*every* single-dimension sort: under the default configuration the
duration sort raises `KeyError` on any batch of analyzable files,
because the category labels it assigns embed the fixed thresholds
(`short_under_60s`, …) while its stats dict is keyed
`short`/`medium`/`long` (see the counterexample). -/
theorem C2_roundtrip_orientation (cfg : Config) (sqrtFn : ℚ → ℚ) (fs : FS)
    (hflat : fs.subdirs = [])
    (hnodup : (fs.rootFiles.map Video.render).Nodup)
    (hcat : ∀ v ∈ fs.rootFiles,
      v.render ≠ "horizontal" ∧ v.render ≠ "vertical") :
    ∃ (r1 : SortRes) (fs1 : FS) (r2 : ResetRes) (fs2 : FS),
      sort_by_orientation cfg sqrtFn false noFail noFail fs = .ok (r1, fs1) ∧
      reset_sorting cfg false noFail noFail fs1 = .ok (r2, fs2) ∧
      (fs2.rootFiles : Multiset Video) = (fs.rootFiles : Multiset Video) ∧
      fs2.subdirs = [] := by
  obtain ⟨pvids, errs, hpre, hbatch, hori⟩ := previewFS_ok cfg sqrtFn fs
  have hsubempty : fs.subFiles = [] := by
    simp [FS.subFiles, hflat]
  by_cases hpne : pvids = []
  · subst hpne
    refine ⟨⟨0, 0, []⟩, fs, ⟨0, 0⟩, fs, ?_, ?_, rfl, hflat⟩
    · simp only [sort_by_orientation, sortGeneric, hpre]
      simp
    · have hl : filesToMove cfg fs = [] := by
        simp [filesToMove, hflat]
      unfold reset_sorting
      rw [hl]
      simp
  · have hsubB : ∀ v, v ∈ pvids.map (fun pv => pv.video) →
        v ∈ fs.rootFiles ∧ isVideoFile cfg v = true := by
      intro v hv
      rw [hbatch, List.mem_filter] at hv
      have hv1 := hv.1
      rw [listRootVideos, List.mem_mergeSort, List.mem_filter] at hv1
      exact ⟨hv1.1, hv1.2⟩
    have hlnB : ((pvids.map (fun pv => pv.video)).map Video.render).Nodup := by
      rw [hbatch]
      have hp2 : List.Perm
          (((listRootVideos cfg fs).filter (fun v => v.probeOk)).map Video.render)
          (((fs.rootFiles.filter (isVideoFile cfg)).filter
            (fun v => v.probeOk)).map Video.render) :=
        ((List.mergeSort_perm _ _).filter _).map _
      rw [hp2.nodup_iff]
      exact hnodup.sublist
        (((List.filter_sublist _).trans (List.filter_sublist _)).map _)
    obtain ⟨st', hloop, hroot, hsub, hnd', hnames', hne', hrn'⟩ :=
      sortLoop_clean_spec (fun pv => pv.orientation) pvids 0
        ⟨0, [("horizontal", 0), ("vertical", 0)], fs⟩
        (fun pv hpv => by rcases hori pv hpv with h | h <;> simp [h])
        (fun pv hpv => (hsubB pv.video (List.mem_map.mpr ⟨pv, hpv, rfl⟩)).1)
        (fun pv hpv w hw => by
          show w.render ≠ pv.orientation
          rcases hori pv hpv with h | h
          · rw [h]
            exact (hcat w hw).1
          · rw [h]
            exact (hcat w hw).2)
        hnodup (by rw [List.map_map] at hlnB; exact hlnB)
        (fun pv _ w hw => by
          rw [hsubempty] at hw
          exact absurd hw (List.not_mem_nil w))
        (by simp [hflat]) (by simp [hflat])
    have hsort : sort_by_orientation cfg sqrtFn false noFail noFail fs =
        .ok (⟨st'.moved, errs.length, st'.stats⟩, st'.fs) := by
      simp only [sort_by_orientation, sortGeneric, hpre]
      rw [if_neg hpne, hloop]
    have hrootmr : (st'.fs.rootFiles : Multiset Video) +
        ((pvids.map fun pv => pv.video : List Video) : Multiset Video) =
        (fs.rootFiles : Multiset Video) := hroot
    have hsubm : (st'.fs.subFiles : Multiset Video) =
        ((pvids.map fun pv => pv.video : List Video) : Multiset Video) := by
      have h1 : (st'.fs.subFiles : Multiset Video) =
          (fs.subFiles : Multiset Video) +
          ((pvids.map fun pv => pv.video : List Video) : Multiset Video) := hsub
      rw [h1, hsubempty]
      simp
    have hmemsub : ∀ v, v ∈ st'.fs.subFiles →
        v ∈ pvids.map (fun pv => pv.video) := by
      intro v hv
      have h1 : v ∈ ((pvids.map fun pv => pv.video : List Video) :
          Multiset Video) := by
        rw [← hsubm]
        exact Multiset.mem_coe.mpr hv
      exact Multiset.mem_coe.mp h1
    have hwalk : ∀ pr ∈ dirPairs st'.fs, isVideoFile cfg pr.2 = true := by
      intro pr hpr
      have hsnd : pr.2 ∈ (dirPairs st'.fs).map Prod.snd :=
        List.mem_map.mpr ⟨pr, hpr, rfl⟩
      rw [dirPairs_map_snd] at hsnd
      exact (hsubB pr.2 (hmemsub pr.2 hsnd)).2
    have hftm : filesToMove cfg st'.fs = dirPairs st'.fs :=
      filesToMove_eq_dirPairs cfg st'.fs hwalk
    have hlne : dirPairs st'.fs ≠ [] := by
      intro hc
      have h0 : st'.fs.subFiles = [] := by
        rw [← dirPairs_map_snd, hc]
        rfl
      have hB0 : ((pvids.map fun pv => pv.video : List Video) :
          Multiset Video) = 0 := by
        rw [← hsubm, h0]
        rfl
      exact hpne (List.map_eq_nil_iff.mp ((Multiset.coe_eq_zero _).mp hB0))
    have hvid : (st'.fs.rootFiles : Multiset Video) +
        (st'.fs.subFiles : Multiset Video) = (fs.rootFiles : Multiset Video) := by
      rw [hsubm]
      exact hrootmr
    have hdmap : (dirPairs st'.fs).map (fun pr => pr.2.render) =
        st'.fs.subFiles.map Video.render := by
      rw [← dirPairs_map_snd, List.map_map]
      rfl
    have hfresh2 : (st'.fs.rootFiles.map Video.render ++
        (dirPairs st'.fs).map (fun pr => pr.2.render)).Nodup := by
      rw [hdmap, ← Multiset.coe_nodup, ← Multiset.coe_add]
      have hkey : ((st'.fs.rootFiles.map Video.render : List String) :
          Multiset String) +
          ((st'.fs.subFiles.map Video.render : List String) : Multiset String) =
          ((fs.rootFiles.map Video.render : List String) : Multiset String) := by
        have h2 := congrArg (Multiset.map Video.render) hvid
        simpa using h2
      rw [hkey, Multiset.coe_nodup]
      exact hnodup
    have hdir2 : ∀ pr ∈ dirPairs st'.fs, ∀ d' ∈ st'.fs.subdirs.map Prod.fst,
        pr.2.render ≠ d' := by
      intro pr hpr d' hd'
      have hv : pr.2 ∈ fs.rootFiles := by
        have hsnd : pr.2 ∈ (dirPairs st'.fs).map Prod.snd :=
          List.mem_map.mpr ⟨pr, hpr, rfl⟩
        rw [dirPairs_map_snd] at hsnd
        exact (hsubB pr.2 (hmemsub pr.2 hsnd)).1
      rcases hnames' d' hd' with hd1 | ⟨pv, hpv, rfl⟩
      · rw [hflat] at hd1
        exact absurd hd1 (by simp)
      · rcases hori pv hpv with h | h <;> rw [h]
        · exact (hcat pr.2 hv).1
        · exact (hcat pr.2 hv).2
    obtain ⟨fs2', hloop2, hroot2, _, hdp2⟩ :=
      resetLoop_clean_spec (dirPairs st'.fs) 0 ⟨0, 0, st'.fs⟩
        rfl hfresh2 hdir2 hnd'
    have hloop2' : resetLoop false noFail noFail (dirPairs st'.fs) 0
        ⟨0, 0, st'.fs⟩ = .ok ⟨0 + (dirPairs st'.fs).length, 0, fs2'⟩ := hloop2
    have hroot2' : fs2'.rootFiles =
        st'.fs.rootFiles ++ (dirPairs st'.fs).map Prod.snd := hroot2
    have hreset : reset_sorting cfg false noFail noFail st'.fs =
        .ok (⟨0 + (dirPairs st'.fs).length, 0⟩, fs2'.prune) := by
      unfold reset_sorting
      rw [hftm, if_neg hlne, hloop2']
      rfl
    have hfinal : (fs2'.prune.rootFiles : Multiset Video) =
        (fs.rootFiles : Multiset Video) := by
      have hpr : fs2'.prune.rootFiles = fs2'.rootFiles := rfl
      rw [hpr, hroot2', dirPairs_map_snd, ← Multiset.coe_add]
      exact hvid
    exact ⟨⟨st'.moved, errs.length, st'.stats⟩, st'.fs,
      ⟨0 + (dirPairs st'.fs).length, 0⟩, fs2'.prune, hsort, hreset, hfinal,
      prune_of_all_empty ((dirPairs_eq_nil_iff fs2').mp hdp2)⟩

/-- Witness for C2 on the concrete two-file flat directory
`{a.mp4 (200×100), b.mp4 (100×200)}`: the orientation sort and the
subsequent reset both succeed and restore the original flat population. -/
theorem C2_witness :
    ∃ (r1 : SortRes) (fs1 : FS) (r2 : ResetRes) (fs2 : FS),
      sort_by_orientation defaultConfig sqrtZero false noFail noFail
        ⟨[exA, exB], []⟩ = .ok (r1, fs1) ∧
      reset_sorting defaultConfig false noFail noFail fs1 = .ok (r2, fs2) ∧
      (fs2.rootFiles : Multiset Video) =
        (([exA, exB] : List Video) : Multiset Video) ∧
      fs2.subdirs = [] :=
  C2_roundtrip_orientation defaultConfig sqrtZero ⟨[exA, exB], []⟩ rfl
    (by decide) (by decide)

/-- **C2 counterexample**: under the default configuration the duration
sort cannot complete on a flat single-file directory: `stats[category]
+= 1` raises `KeyError` because the assigned label embeds the fixed
thresholds while the stats dict is keyed `short`/`medium`/`long`, so
the round trip of the original claim fails for that sort. -/
theorem C2_counterexample :
    sort_by_duration defaultConfig sqrtZero false noFail noFail
      ⟨[exA], []⟩ = .error .keyErr := by
  decide

end Sorter
